import Mathlib

/-!
# Email-Robot-server: the `POST /send-emails` handler

A shallow embedding of `src/index.js`: the form fields of a multipart request,
the parsing of the `emails` field, the batch loop with its JavaScript
arithmetic on the `batchSize` field (a number when the field is absent, the
submitted text otherwise), the per-recipient bookkeeping of `sendEmail`, the
cleanup and the response.
-/

namespace EmailRobot

/-- A JavaScript string, as its sequence of characters. -/
abbrev Str := List Char

/-! ## Strings: `trim` and `split` -/

/-- The characters `String.prototype.trim` strips, which are also the ones the
string-to-number conversion skips: ECMAScript WhiteSpace and LineTerminator. -/
def isWhiteSpace (c : Char) : Bool :=
  let n := c.toNat
  n == 0x09 || n == 0x0A || n == 0x0B || n == 0x0C || n == 0x0D || n == 0x20 ||
  n == 0xA0 || n == 0x1680 || (0x2000 ≤ n && n ≤ 0x200A) || n == 0x2028 ||
  n == 0x2029 || n == 0x202F || n == 0x205F || n == 0x3000 || n == 0xFEFF

/-- The method `String.prototype.trim`. -/
def trim (s : Str) : Str :=
  (s.dropWhile isWhiteSpace).rdropWhile isWhiteSpace

/-- The method `String.prototype.split` with a one-character separator: the
pieces between the separators, the empty ones included; the empty string gives
one empty piece. -/
def split (sep : Char) : Str → List Str
  | [] => [[]]
  | c :: cs =>
    if c = sep then [] :: split sep cs
    else
      match split sep cs with
      | [] => [[c]]
      | p :: ps => (c :: p) :: ps

/-- Lines 73-76: `emails.split(",").map((email) => email.trim()).filter((email) => email)`.
A string is truthy when it is not empty. -/
def emailList (emails : Str) : List Str :=
  ((split ',' emails).map trim).filter (fun email => !email.isEmpty)

/-- An entry that trimming empties: all of it is whitespace. -/
def isBlank (s : Str) : Bool := s.all isWhiteSpace

/-! ## JavaScript numbers and the conversions the batch loop relies on -/

/-- A JavaScript number, a double: `NaN`, an infinity, or a finite value
`± m · 2 ^ e`, the zeros included. -/
inductive JSNum where
  | nan
  | inf (neg : Bool)
  | fin (neg : Bool) (m : Nat) (e : Int)
  deriving DecidableEq

/-- The integer part of `m · 2 ^ e`. -/
def floorAbs (m : Nat) (e : Int) : Nat :=
  if 0 ≤ e then m * 2 ^ e.toNat else m / 2 ^ (-e).toNat

/-- The number of binary digits of `n`, with `fuel` at least that number. -/
def bitLengthAux : Nat → Nat → Nat
  | 0, _ => 0
  | fuel + 1, n => if n = 0 then 0 else bitLengthAux fuel (n / 2) + 1

/-- The number of binary digits of `n`: 0 for 0, and `k` when
`2 ^ (k - 1) ≤ n < 2 ^ k`. -/
def bitLength (n : Nat) : Nat := bitLengthAux n n

/-- The integer nearest to `a / b`, the even one when two are equally near. -/
def roundHalfEven (a b : Nat) : Nat :=
  if 2 * (a % b) < b then a / b
  else if b < 2 * (a % b) then a / b + 1
  else if (a / b) % 2 = 0 then a / b
  else a / b + 1

/-- The double nearest to `± a / b` for `b > 0` (round to nearest, ties to
even): with `2 ^ E ≤ a / b < 2 ^ (E + 1)` the result is a multiple of
`2 ^ (E - 52)`, of `2 ^ (-1074)` in the subnormal range, and an infinity from
`2 ^ 1024` on, that is when the rounded value has more than 1024 binary digits. -/
def roundRatio (neg : Bool) (a b : Nat) : JSNum :=
  if a = 0 then .fin neg 0 0
  else
    let d : Int := (bitLength a : Int) - (bitLength b : Int)
    let E : Int := if b * 2 ^ d.toNat ≤ a * 2 ^ (-d).toNat then d else d - 1
    let Q : Int := max (E - 52) (-1074)
    let k := roundHalfEven (a * 2 ^ (-Q).toNat) (b * 2 ^ Q.toNat)
    if 1025 ≤ bitLength k + Q.toNat then .inf neg else .fin neg k Q

/-- The double a decimal literal `± m · 10 ^ e` denotes. -/
def toDouble (neg : Bool) (m : Nat) (e : Int) : JSNum :=
  if 0 ≤ e then roundRatio neg (m * 10 ^ e.toNat) 1 else roundRatio neg m (10 ^ (-e).toNat)

/-- Value of a digit character in a radix up to 16; `none` for other characters. -/
def digitValue (radix : Nat) (c : Char) : Option Nat :=
  let n := c.toNat
  let v : Option Nat :=
    if 48 ≤ n ∧ n ≤ 57 then some (n - 48)
    else if 97 ≤ n ∧ n ≤ 102 then some (n - 87)
    else if 65 ≤ n ∧ n ≤ 70 then some (n - 55)
    else none
  v.bind fun d => if d < radix then some d else none

/-- Whether the character is a digit of the radix. -/
def isDigitOf (radix : Nat) (c : Char) : Bool := (digitValue radix c).isSome

/-- The number a sequence of digits denotes in a radix. -/
def natOfDigits (radix : Nat) (ds : Str) : Nat :=
  ds.foldl (fun acc c => radix * acc + (digitValue radix c).getD 0) 0

/-- ExponentPart of a decimal literal, up to the end of the string: nothing, or
`e`/`E`, an optional sign and at least one digit. -/
def parseExponent : Str → Option Int
  | [] => some 0
  | c :: rest =>
    if c = 'e' ∨ c = 'E' then
      let signed : Bool × Str :=
        match rest with
        | [] => (false, [])
        | d :: ds => if d = '+' then (false, ds) else if d = '-' then (true, ds) else (false, d :: ds)
      if signed.2 ≠ [] ∧ signed.2.all (isDigitOf 10) then
        some (if signed.1 then -(natOfDigits 10 signed.2 : Int) else (natOfDigits 10 signed.2 : Int))
      else none
    else none

/-- StrUnsignedDecimalLiteral other than `Infinity`: digits, an optional
fraction and an optional exponent, with a digit on at least one side of the
point. The result is the pair `(m, e)` of the value `m · 10 ^ e`. -/
def parseUnsignedDecimal (s : Str) : Option (Nat × Int) :=
  let ip := s.takeWhile (isDigitOf 10)
  match s.dropWhile (isDigitOf 10) with
  | [] => if ip = [] then none else some (natOfDigits 10 ip, 0)
  | c :: rest =>
    if c = '.' then
      let fp := rest.takeWhile (isDigitOf 10)
      if ip = [] ∧ fp = [] then none
      else (parseExponent (rest.dropWhile (isDigitOf 10))).map fun e =>
        (natOfDigits 10 (ip ++ fp), e - (fp.length : Int))
    else if ip = [] then none
    else (parseExponent (c :: rest)).map fun e => (natOfDigits 10 ip, e)

/-- The radix a `0x`, `0o` or `0b` prefix announces, with the digits after it. -/
def radixPrefix : Str → Option (Nat × Str)
  | c :: d :: ds =>
    if c = '0' then
      if d = 'x' ∨ d = 'X' then some (16, ds)
      else if d = 'o' ∨ d = 'O' then some (8, ds)
      else if d = 'b' ∨ d = 'B' then some (2, ds)
      else none
    else none
  | _ => none

/-- StrDecimalLiteral after its sign. -/
def parseDecimal (neg : Bool) (s : Str) : JSNum :=
  if s = ['I', 'n', 'f', 'i', 'n', 'i', 't', 'y'] then .inf neg
  else
    match parseUnsignedDecimal s with
    | some (m, e) => toDouble neg m e
    | none => .nan

/-- StringToNumber: surrounding whitespace is dropped; the empty string is 0;
a radix prefix takes unsigned digits of that radix; otherwise an optional sign
and a decimal literal; anything else is `NaN`. The value of the literal is
rounded to a double. -/
def stringToNumber (s : Str) : JSNum :=
  match trim s with
  | [] => .fin false 0 0
  | c :: cs =>
    match radixPrefix (c :: cs) with
    | some (radix, ds) =>
      if ds ≠ [] ∧ ds.all (isDigitOf radix) then roundRatio false (natOfDigits radix ds) 1
      else .nan
    | none =>
      if c = '+' then parseDecimal false cs
      else if c = '-' then parseDecimal true cs
      else parseDecimal false (c :: cs)

/-- The values the loop variable `i` and `batchSize` take: a number (a natural
number: `i` starts at 0 and the only numeric batch size is the default; the
sums are exact as long as they are array indices) or a string. -/
inductive JSVal where
  | num (n : Nat)
  | str (s : Str)
  deriving DecidableEq

/-- The conversion ToNumber. -/
def toNumber : JSVal → JSNum
  | .num n => .fin false n 0
  | .str s => stringToNumber s

/-- The conversion ToString, on the numbers that occur (decimal digits). -/
def jsToString : JSVal → Str
  | .num n => Nat.toDigits 10 n
  | .str s => s

/-- The operator `+`: numeric addition of two numbers, concatenation of the
string forms as soon as one operand is a string. -/
def jsAdd : JSVal → JSVal → JSVal
  | .num a, .num b => .num (a + b)
  | a, b => .str (jsToString a ++ jsToString b)

/-- The comparison `x < n` of a number with an array length: false for `NaN`. -/
def JSNum.ltNat : JSNum → Nat → Bool
  | .nan, _ => false
  | .inf neg, _ => neg
  | .fin neg m e, n => if neg ∧ m ≠ 0 then true else decide (floorAbs m e < n)

/-- The test `x < emailList.length` for `x` the loop variable or `i + batchSize`:
`x` is not compared as a string, since the other side is a number. -/
def jsLtNat (x : JSVal) (n : Nat) : Bool := (toNumber x).ltNat n

/-- How `Array.prototype.slice` reads a bound on an array of length `len`:
ToIntegerOrInfinity (`NaN` is 0, the fraction is dropped), a negative value
counts from the end, and the result is clamped to `[0, len]`. -/
def relIndex (x : JSNum) (len : Nat) : Nat :=
  match x with
  | .nan => 0
  | .inf neg => if neg then 0 else len
  | .fin neg m e =>
    if neg ∧ floorAbs m e ≠ 0 then len - floorAbs m e else min (floorAbs m e) len

/-- The method `Array.prototype.slice(start, end)`. -/
def slice {α : Type} (l : List α) (start stop : JSVal) : List α :=
  let k := relIndex (toNumber start) l.length
  let final := relIndex (toNumber stop) l.length
  (l.drop k).take (final - k)

/-! ## The request, its environment and the response -/

/-- The file multer stored for the `resume` field (`req.file`). -/
structure UploadedFile where
  originalname : Str
  path : Str
  deriving DecidableEq

/-- A value of a field of `req.body`. A multipart field sent once is a string;
a field sent several times, or under a bracketed name, is an array or an
object: it is truthy and has no string methods, and `primitive` is the string
the operator `+` converts it to (the comma-join of an array, `[object Object]`
for an object), or `none` when that conversion throws (an object without a
prototype). A truthy value of a JSON body that is not a string behaves in
the same way, and a falsy one as an absent field. -/
inductive FieldValue where
  | text (s : Str)
  | nonText (primitive : Option Str)
  deriving DecidableEq

/-- A request to `POST /send-emails` as the handler sees it: every field of
`req.body` is absent or has a value, and the upload `req.file` is absent or
present. -/
structure Request where
  senderEmail : Option FieldValue
  appPassword : Option FieldValue
  emails : Option FieldValue
  batchSize : Option FieldValue
  name : Option FieldValue
  phoneNumber : Option FieldValue
  website : Option FieldValue
  degree : Option FieldValue
  customMessage : Option FieldValue
  file : Option UploadedFile

/-- What the handler does not control. `sendMailOk n` tells whether the `n`-th
call of `transporter.sendMail` (counted from 0, in call order) resolves or
rejects; `settleOrder k` is the order in which the sends of the `k`-th batch
settle, some rearrangement of the order they were started in; `random n` is
the `n`-th value of `Math.random()`, in `[0, 1)`; `fl` is the rounding of an
arithmetic result to a double, monotone and exact on the natural numbers up to
`2 ^ 53`; `unlinkError` is the message of the error `fs.unlinkSync` throws, if
it throws. -/
structure Env where
  sendMailOk : Nat → Bool
  settleOrder : Nat → List (Str × Bool) → List (Str × Bool)
  settleOrder_perm : ∀ k l, (settleOrder k l).Perm l
  random : Nat → ℚ
  random_nonneg : ∀ n, 0 ≤ random n
  random_lt_one : ∀ n, random n < 1
  fl : ℚ → ℚ
  fl_mono : ∀ x y, x ≤ y → fl x ≤ fl y
  fl_exact : ∀ n : Nat, n ≤ 2 ^ 53 → fl (n : ℚ) = (n : ℚ)
  unlinkError : Option String

/-- Lines 87-92: the object `results`. -/
structure Results where
  total : Nat
  sent : Nat
  failed : Nat
  sentEmails : List Str
  deriving DecidableEq

/-- One pass of the batch loop, as observed: the value of `i` at the loop test,
the slice taken, the calls of `sendEmail` in call order with the outcome of
each, and the delay awaited after the batch, if one was. -/
structure Iteration where
  index : JSVal
  batch : List Str
  attempts : List (Str × Bool)
  delay : Option ℚ

/-- State of the dispatch: `results`, the number of `sendMail` calls and of
`Math.random` calls made so far, and the passes of the loop so far. -/
structure Dispatch where
  results : Results
  sendCalls : Nat
  randomCalls : Nat
  log : List Iteration

/-- Body of a JSON response. -/
inductive Body where
  | error (error : String)
  | results (results : Results)
  | failure (error : String) (details : String)
  deriving DecidableEq

/-- Status and body of the response. -/
structure Response where
  status : Nat
  body : Body
  deriving DecidableEq

/-- What a run of the handler leaves: the response and the passes of the batch
loop that were executed. -/
structure Outcome where
  response : Response
  log : List Iteration

/-! ## The handler -/

/-- Line 142: `Math.random() * 120000 + 180000`, each operation rounded. -/
def delayMs (env : Env) (r : ℚ) : ℚ :=
  env.fl (env.fl (r * 120000) + 180000)

/-- Lines 122-123 and 127: what a settled `sendEmail` does to `results`. -/
def settle (results : Results) (a : Str × Bool) : Results :=
  if a.2 then
    { results with sent := results.sent + 1, sentEmails := results.sentEmails ++ [a.1] }
  else
    { results with failed := results.failed + 1 }

/-- Lines 95-130: the call number `n` of `sendEmail`, up to its `await`: the
recipient, and whether `transporter.sendMail` resolves (the call returns `true`)
or rejects (it returns `false`). -/
def sendEmail (env : Env) (n : Nat) (email : Str) : Str × Bool :=
  (email, env.sendMailOk n)

/-- Line 137: the calls `batch.map(sendEmail)` makes, in order; `n` calls were
made before. -/
def attempt (env : Env) : Nat → List Str → List (Str × Bool)
  | _, [] => []
  | n, email :: rest => sendEmail env n email :: attempt env (n + 1) rest

/-- Lines 134-144: one pass of the loop, for the value `i` of the loop variable. -/
def batchStep (env : Env) (emailList : List Str) (batchSize : JSVal) (i : JSVal)
    (d : Dispatch) : Dispatch :=
  let batch := slice emailList i (jsAdd i batchSize)
  let attempts := attempt env d.sendCalls batch
  let results := (env.settleOrder d.log.length attempts).foldl settle d.results
  let delayed := jsLtNat (jsAdd i batchSize) emailList.length
  { results := results
    sendCalls := d.sendCalls + batch.length
    randomCalls := if delayed then d.randomCalls + 1 else d.randomCalls
    log := d.log ++ [{ index := i, batch := batch, attempts := attempts,
                       delay := if delayed then some (delayMs env (env.random d.randomCalls))
                                else none }] }

/-- Lines 133-145: `for (let i = 0; i < emailList.length; i += batchSize)`, from
the value `i` of the loop variable on; `none` when the fuel does not suffice to
reach the end of the loop. -/
def batchLoop (env : Env) (emailList : List Str) (batchSize : JSVal) :
    Nat → JSVal → Dispatch → Option Dispatch
  | 0, _, _ => none
  | fuel + 1, i, d =>
    if jsLtNat i emailList.length then
      batchLoop env emailList batchSize fuel (jsAdd i batchSize)
        (batchStep env emailList batchSize i d)
    else some d

/-- Line 59: `batchSize = 70` in the destructuring of `req.body`, as the operand
of `i + batchSize` and `i += batchSize`: the default applies only to an absent
field; a submitted field is a string, or is converted to one by `+`; `none` when
that conversion throws. -/
def batchSizeOf (req : Request) : Option JSVal :=
  match req.batchSize with
  | none => some (.num 70)
  | some (.text s) => some (.str s)
  | some (.nonText (some s)) => some (.str s)
  | some (.nonText none) => none

/-- Lines 87-92: `results` before the loop. -/
def initialDispatch (emailList : List Str) : Dispatch :=
  { results := { total := emailList.length, sent := 0, failed := 0, sentEmails := [] }
    sendCalls := 0, randomCalls := 0, log := [] }

/-- Lines 133-145 from `i = 0`. -/
def dispatch (env : Env) (emailList : List Str) (batchSize : JSVal) (fuel : Nat) :
    Option Dispatch :=
  batchLoop env emailList batchSize fuel (.num 0) (initialDispatch emailList)

/-- Lines 147-157: `fs.unlinkSync`, then the 200 response; an error thrown by
the deletion is caught by the handler's `catch`, which responds 500. -/
def finish (env : Env) (d : Dispatch) : Outcome :=
  match env.unlinkError with
  | some message =>
    { response := { status := 500, body := .failure "Failed to send emails" message }
      log := d.log }
  | none => { response := { status := 200, body := .results d.results }, log := d.log }

/-- A field the test `!field` rejects: absent, or the empty string. -/
def missing (field : Option FieldValue) : Bool :=
  match field with
  | none => true
  | some (.text s) => s.isEmpty
  | some (.nonText _) => false

/-- The response of the `catch` block of lines 152-157 to an error thrown
before any send. -/
def thrown (message : String) : Outcome :=
  { response := { status := 500, body := .failure "Failed to send emails" message }
    log := [] }

/-- Lines 53-158: the handler; `none` when the fuel does not suffice for the
batch loop to end. After the test of line 68, `emails.split` of line 74 throws
when `emails` is not a string, before the file is looked at. When `batchSize`
cannot be converted by `+`, the first pass of the loop throws at
`i + batchSize`, before its slice and any send; the loop is not entered when the
list is empty. `createTransporter` only stores the credentials and is left
out; the message body is the same for every recipient and does not influence
the control flow. -/
def handler (env : Env) (req : Request) (fuel : Nat) : Option Outcome :=
  if missing req.senderEmail || missing req.appPassword || missing req.emails then
    some { response := { status := 400, body := .error "Missing required fields" }, log := [] }
  else
    match req.emails with
    | some (.text emails) =>
      match req.file with
      | none =>
        some { response := { status := 400, body := .error "Resume PDF is required" },
               log := [] }
      | some _ =>
        match batchSizeOf req with
        | some batchSize => (dispatch env (emailList emails) batchSize fuel).map (finish env)
        | none =>
          if (emailList emails).isEmpty then
            some (finish env (initialDispatch (emailList emails)))
          else some (thrown "Cannot convert object to primitive value")
    | _ => some (thrown "emails.split is not a function")

/-! ## The passes a run of the loop is compared with -/

/-- The successive values `ix 0, ix 1, …` of the loop variable for a batch size
and a list of length `len`, with the array positions `v 0, v 1, …` they stand
for: the next value is `i + batchSize`, the loop test and `slice` read `ix k` as
the position `v k`, and the positions increase as long as they are in the list. -/
structure Boundaries (len : Nat) (batchSize : JSVal) (ix : Nat → JSVal)
    (v : Nat → Nat) : Prop where
  start : ix 0 = .num 0
  zero : v 0 = 0
  next : ∀ k, jsAdd (ix k) batchSize = ix (k + 1)
  test : ∀ k, jsLtNat (ix k) len = decide (v k < len)
  index : ∀ k, relIndex (toNumber (ix k)) len = min (v k) len
  mono : ∀ k, v k < len → v k < v (k + 1)

/-- The array position a number stands for in a list of length `len`: its
integer part when it is finite, the end of the list when it is an infinity. -/
def position (len : Nat) (x : JSNum) : Nat :=
  match x with
  | .fin _ m e => floorAbs m e
  | _ => len

/-- The pass number `j` of a loop whose variable runs through `ix` at the
positions `v`: the entries from position `v j` up to `v (j + 1)`, one attempt
for each, and a delay when entries remain after them. -/
def expectedIteration (env : Env) (emailList : List Str) (ix : Nat → JSVal) (v : Nat → Nat)
    (j : Nat) : Iteration :=
  { index := ix j
    batch := (emailList.drop (v j)).take (v (j + 1) - v j)
    attempts := attempt env (v j) ((emailList.drop (v j)).take (v (j + 1) - v j))
    delay := if v (j + 1) < emailList.length then some (delayMs env (env.random j)) else none }

/-- What holds of the dispatch state at the loop test number `k`. -/
structure LoopInv (env : Env) (emailList : List Str) (ix : Nat → JSVal) (v : Nat → Nat)
    (k : Nat) (d : Dispatch) : Prop where
  log : d.log = (List.range k).map (expectedIteration env emailList ix v)
  sendCalls : d.sendCalls = min (v k) emailList.length
  randomCalls : d.randomCalls = if v k < emailList.length then k else k - 1
  total : d.results.total = emailList.length
  sent : d.results.sent = d.results.sentEmails.length
  sentEmails : d.results.sentEmails.Perm
    (((attempt env 0 (emailList.take (v k))).filter (fun a => a.2)).map (fun a => a.1))
  failed : d.results.failed =
    ((attempt env 0 (emailList.take (v k))).filter (fun a => !a.2)).length

/-- A `batchSize` text that is a positive integer in decimal digits. -/
def positiveDigits (s : Str) : Bool :=
  !s.isEmpty && s.all (isDigitOf 10) && decide (0 < natOfDigits 10 s)

/-- A `batchSize` field that is absent or a positive integer in decimal digits. -/
def positiveBatchSize (batchSize : Option FieldValue) : Bool :=
  match batchSize with
  | none => true
  | some (.text s) => positiveDigits s
  | some (.nonText _) => false

/-- The string `s` written `k` times. -/
def repeatStr (s : Str) : Nat → Str
  | 0 => []
  | k + 1 => repeatStr s k ++ s

/-- The loop variable at the test number `k` when `batchSize` is the string `s`:
the number 0, then `"0"` followed by `k` copies of `s`. -/
def textIndex (s : Str) : Nat → JSVal
  | 0 => .num 0
  | k + 1 => .str ('0' :: repeatStr s (k + 1))

/-- A `batchSize` text that is an integer `<= 0` in decimal digits: digits that
denote zero, or a minus sign followed by digits. -/
def nonPositiveInteger (s : Str) : Bool :=
  (!s.isEmpty && s.all (isDigitOf 10) && natOfDigits 10 s == 0) ||
    match s with
    | [] => false
    | c :: ds => c == '-' && !ds.isEmpty && ds.all (isDigitOf 10)

/-! ## Requests that pass validation, and sample inputs -/

/-- Whether the field is a string. -/
def isText (field : Option FieldValue) : Bool :=
  match field with
  | some (.text _) => true
  | _ => false

/-- The request passes lines 67-81: the three fields are present and not empty,
`emails` is a string, so that line 74 can split it, and a file was uploaded. -/
def validated (req : Request) : Bool :=
  !missing req.senderEmail && !missing req.appPassword && !missing req.emails &&
    isText req.emails && req.file.isSome

/-- The recipient list of the request (`emailList` in the handler); there is
none when `emails` is not a string. -/
def recipients (req : Request) : List Str :=
  match req.emails with
  | some (.text emails) => emailList emails
  | _ => []

/-- The delays awaited during the passes, in order. -/
def delaysOf (log : List Iteration) : List ℚ :=
  log.filterMap (fun it => it.delay)

/-- The calls of `sendEmail` made during the passes, in call order. -/
def attemptsOf (log : List Iteration) : List (Str × Bool) :=
  log.flatMap (fun it => it.attempts)

/-- The environment with another outcome of the attachment deletion. -/
def withUnlink (env : Env) (unlinkError : Option String) : Env :=
  { env with unlinkError := unlinkError }

/-- An environment in which every send whose call number satisfies `ok`
succeeds, sends settle in the reverse of the order they were started in,
`Math.random()` is always one half, arithmetic is exact and the deletion of
the attachment succeeds. -/
def sampleEnv (ok : Nat → Bool) : Env where
  sendMailOk := ok
  settleOrder := fun _ l => l.reverse
  settleOrder_perm := fun _ l => List.reverse_perm l
  random := fun _ => 1 / 2
  random_nonneg := fun _ => by norm_num
  random_lt_one := fun _ => by norm_num
  fl := fun x => x
  fl_mono := fun _ _ h => h
  fl_exact := fun _ _ => rfl
  unlinkError := none

/-- A request with sender, password and upload present, and the given `emails`
and `batchSize` fields. -/
def sampleRequest (emails : Option String) (batchSize : Option String) : Request :=
  { senderEmail := some (.text "me@example.com".toList)
    appPassword := some (.text "app-password".toList)
    emails := emails.map fun s => .text s.toList
    batchSize := batchSize.map fun s => .text s.toList
    name := some (.text "N".toList)
    phoneNumber := none
    website := none
    degree := some (.text "Application".toList)
    customMessage := some (.text "<p>Hello</p>".toList)
    file := some { originalname := "cv.pdf".toList, path := "uploads/1700000000000.pdf".toList } }

/-- A request without upload whose `emails` field was sent twice, which multer
delivers as an array; sender and password are present. -/
def repeatedEmailsRequest : Request :=
  { sampleRequest none none with
    emails := some (.nonText (some "a@x.org,b@x.org".toList))
    file := none }

/-- The text `a,a,…,a,`, with `n` entries `a`: an `emails` field of `n` recipients. -/
def manyRecipients (n : Nat) : String :=
  String.mk (List.replicate n ['a', ',']).flatten

/-- The dispatch state after the two sends of a request with the recipients
`a@x.org` and `b@x.org`, the default batch size and `sampleEnv` with every send
succeeding: one pass, both sent, settled in reverse order. -/
def finishedTwo : Dispatch :=
  { results := { total := 2, sent := 2, failed := 0,
                 sentEmails := ["b@x.org".toList, "a@x.org".toList] }
    sendCalls := 2
    randomCalls := 0
    log := [{ index := .num 0
              batch := ["a@x.org".toList, "b@x.org".toList]
              attempts := [("a@x.org".toList, true), ("b@x.org".toList, true)]
              delay := none }] }

/-- What a completed dispatch has done, in terms of the recipient list alone. -/
structure Completed (env : Env) (l : List Str) (d : Dispatch) : Prop where
  attempts : attemptsOf d.log = attempt env 0 l
  batches : (d.log.map (fun it => it.batch)).flatten = l
  passes : d.log.length ≤ l.length
  indices : ∃ v : Nat → Nat, (∀ j, j + 1 < d.log.length → v j < v (j + 1)) ∧
    ∀ j it, d.log[j]? = some it →
      jsLtNat it.index l.length = true ∧ relIndex (toNumber it.index) l.length = v j
  total : d.results.total = l.length
  sum : d.results.sent + d.results.failed = d.results.total
  sent : d.results.sent = d.results.sentEmails.length
  sentEmails : d.results.sentEmails.Perm
    (((attempt env 0 l).filter (fun a => a.2)).map (fun a => a.1))
  failed : d.results.failed = ((attempt env 0 l).filter (fun a => !a.2)).length

/-! ## Parsing the `emails` field -/

theorem split_ne_nil (sep : Char) (s : Str) : split sep s ≠ [] := by
  cases s with
  | nil => simp [split]
  | cons c cs =>
    simp only [split]
    split_ifs
    · simp
    · split <;> simp

theorem intercalate_split (sep : Char) (s : Str) :
    [sep].intercalate (split sep s) = s := by
  induction s with
  | nil => simp [split, List.intercalate]
  | cons c cs ih =>
    simp only [split]
    split_ifs with h
    · obtain ⟨p, ps, hp⟩ := List.exists_cons_of_ne_nil (split_ne_nil sep cs)
      rw [hp] at ih ⊢
      rw [← ih, h]
      simp [List.intercalate, List.intersperse]
    · split
      · next hnil => exact absurd hnil (split_ne_nil sep cs)
      · next p ps hp =>
        rw [hp] at ih
        rw [← ih]
        cases ps <;> simp [List.intercalate, List.intersperse]

theorem not_mem_of_mem_split (sep : Char) (s : Str) :
    ∀ p ∈ split sep s, sep ∉ p := by
  induction s with
  | nil => simp [split]
  | cons c cs ih =>
    simp only [split]
    split_ifs with h
    · intro p hp
      rcases List.mem_cons.1 hp with rfl | hp
      · simp
      · exact ih p hp
    · split
      · next hnil => exact absurd hnil (split_ne_nil sep cs)
      · next p ps hp =>
        rw [hp] at ih
        intro q hq
        rcases List.mem_cons.1 hq with rfl | hq
        · intro hmem
          rcases List.mem_cons.1 hmem with hc | hmem
          · exact h hc.symm
          · exact ih p (List.mem_cons_self _ _) hmem
        · exact ih q (List.mem_cons_of_mem _ hq)

theorem split_eq_splitOn (sep : Char) (s : Str) : split sep s = s.splitOn sep := by
  have h := List.splitOn_intercalate (split sep s) sep (not_mem_of_mem_split sep s) (split_ne_nil sep s)
  rw [intercalate_split] at h
  exact h.symm

theorem trim_sublist (s : Str) : (trim s).Sublist s :=
  ((List.rdropWhile_prefix isWhiteSpace _).sublist).trans (List.dropWhile_sublist _)

theorem trim_eq_nil_iff (s : Str) : trim s = [] ↔ isBlank s = true := by
  unfold trim isBlank
  rw [List.rdropWhile_eq_nil_iff, List.all_eq_true]
  constructor
  · intro h
    have hnil : s.dropWhile isWhiteSpace = [] := by
      by_contra hne
      have h1 := List.head_dropWhile_not isWhiteSpace s hne
      have h2 := h _ (List.head_mem hne)
      simp [h2] at h1
    exact List.dropWhile_eq_nil_iff.1 hnil
  · intro h x hx
    exact h x ((List.dropWhile_sublist _).subset hx)

theorem trim_decompose (s : Str) :
    ∃ a b : Str, s = a ++ trim s ++ b ∧ a.all isWhiteSpace = true ∧ b.all isWhiteSpace = true := by
  refine ⟨s.takeWhile isWhiteSpace, (s.dropWhile isWhiteSpace).rtakeWhile isWhiteSpace, ?_, ?_, ?_⟩
  · unfold trim
    have h : ∀ l : Str, l.rdropWhile isWhiteSpace ++ l.rtakeWhile isWhiteSpace = l := by
      intro l
      rw [List.rdropWhile, List.rtakeWhile, ← List.reverse_append,
        List.takeWhile_append_dropWhile, List.reverse_reverse]
    rw [List.append_assoc, h, List.takeWhile_append_dropWhile]
  · rw [List.all_eq_true]
    intro x hx
    exact List.mem_takeWhile_imp hx
  · rw [List.all_eq_true]
    intro x hx
    exact List.mem_rtakeWhile_imp hx

theorem trim_head_not_ws (s : Str) (c : Char) (h : (trim s).head? = some c) :
    isWhiteSpace c = false := by
  have hpre : trim s <+: s.dropWhile isWhiteSpace := List.rdropWhile_prefix _ _
  obtain ⟨t, ht⟩ := hpre
  cases hts : trim s with
  | nil => rw [hts] at h; simp at h
  | cons x xs =>
    rw [hts] at h ht
    simp only [List.head?_cons, Option.some.injEq] at h
    subst h
    have hne : s.dropWhile isWhiteSpace ≠ [] := by rw [← ht]; simp
    have h1 := List.head_dropWhile_not isWhiteSpace s hne
    have h2 : (s.dropWhile isWhiteSpace).head hne = x := by
      simp [← ht]
    rw [h2] at h1
    exact h1

theorem trim_last_not_ws (s : Str) (c : Char) (h : (trim s).getLast? = some c) :
    isWhiteSpace c = false := by
  have hne : trim s ≠ [] := by
    intro h0; rw [h0] at h; simp at h
  have h1 := List.rdropWhile_last_not isWhiteSpace (s.dropWhile isWhiteSpace) hne
  rw [List.getLast?_eq_getLast _ hne] at h
  simp only [Option.some.injEq] at h
  unfold trim at h
  rw [h] at h1
  simpa using h1


theorem emailList_eq_filterMap (emails : Str) :
    emailList emails =
      (split ',' emails).filterMap (fun p => if isBlank p then none else some (trim p)) := by
  unfold emailList
  induction split ',' emails with
  | nil => rfl
  | cons p ps ih =>
    by_cases hb : isBlank p = true
    · have ht : trim p = [] := (trim_eq_nil_iff p).2 hb
      simp [hb, ht, ih]
    · have ht : trim p ≠ [] := fun h => hb ((trim_eq_nil_iff p).1 h)
      simp [hb, ht, ih]

theorem length_emailList (emails : Str) :
    (emailList emails).length = ((split ',' emails).filter (fun p => !isBlank p)).length := by
  rw [emailList_eq_filterMap]
  induction split ',' emails with
  | nil => rfl
  | cons p ps ih =>
    by_cases hb : isBlank p = true
    · simp [hb, ih]
    · simp [hb, ih]

/-- C5: the recipient list is the sequence of the comma-separated entries of
the `emails` field (the pieces that contain no comma and whose comma-join is
the field), each trimmed of its surrounding whitespace, without the entries
that trimming empties, in the original order and with duplicates kept. No
element is empty, starts or ends with whitespace or contains a comma, and
`total` is the number of entries that are not blank. -/
theorem emailList_parsed (emails : Str) :
    [','].intercalate (split ',' emails) = emails ∧
    (∀ p ∈ split ',' emails, ',' ∉ p) ∧
    split ',' emails = emails.splitOn ',' ∧
    (∀ p : Str, ∃ a b : Str, p = a ++ trim p ++ b ∧
      a.all isWhiteSpace = true ∧ b.all isWhiteSpace = true ∧
      (∀ c, (trim p).head? = some c → isWhiteSpace c = false) ∧
      (∀ c, (trim p).getLast? = some c → isWhiteSpace c = false)) ∧
    emailList emails =
      (split ',' emails).filterMap (fun p => if isBlank p then none else some (trim p)) ∧
    (∀ e ∈ emailList emails, e ≠ [] ∧
      (∀ c, e.head? = some c → isWhiteSpace c = false) ∧
      (∀ c, e.getLast? = some c → isWhiteSpace c = false) ∧ ',' ∉ e) ∧
    (initialDispatch (emailList emails)).results.total =
      ((split ',' emails).filter (fun p => !isBlank p)).length := by
  refine ⟨intercalate_split _ _, not_mem_of_mem_split _ _, split_eq_splitOn _ _, ?_,
    emailList_eq_filterMap _, ?_, length_emailList _⟩
  · intro p
    obtain ⟨a, b, h, ha, hb⟩ := trim_decompose p
    exact ⟨a, b, h, ha, hb, trim_head_not_ws p, trim_last_not_ws p⟩
  · intro e he
    unfold emailList at he
    rw [List.mem_filter, List.mem_map] at he
    obtain ⟨⟨p, hp, rfl⟩, hne⟩ := he
    refine ⟨?_, trim_head_not_ws p, trim_last_not_ws p, ?_⟩
    · intro h0
      rw [h0] at hne
      simp at hne
    · intro hc
      exact not_mem_of_mem_split ',' emails p hp ((trim_sublist p).subset hc)

/-! ## The batch loop -/

theorem attempt_append (env : Env) (n : Nat) (a b : List Str) :
    attempt env n (a ++ b) = attempt env n a ++ attempt env (n + a.length) b := by
  induction a generalizing n with
  | nil => simp [attempt]
  | cons x xs ih =>
    have h : n + 1 + xs.length = n + (xs.length + 1) := by omega
    show sendEmail env n x :: attempt env (n + 1) (xs ++ b) = _
    rw [ih (n + 1), h]
    rfl

theorem length_attempt (env : Env) (n : Nat) (a : List Str) :
    (attempt env n a).length = a.length := by
  induction a generalizing n with
  | nil => rfl
  | cons x xs ih => simp [attempt, sendEmail, ih]

theorem map_fst_attempt (env : Env) (n : Nat) (a : List Str) :
    (attempt env n a).map (fun p => p.1) = a := by
  induction a generalizing n with
  | nil => rfl
  | cons x xs ih => simp [attempt, sendEmail, ih]

theorem foldl_settle (as : List (Str × Bool)) (r : Results) :
    (as.foldl settle r).total = r.total ∧
    (as.foldl settle r).sent = r.sent + (as.filter (fun a => a.2)).length ∧
    (as.foldl settle r).sentEmails =
      r.sentEmails ++ (as.filter (fun a => a.2)).map (fun a => a.1) ∧
    (as.foldl settle r).failed = r.failed + (as.filter (fun a => !a.2)).length := by
  induction as generalizing r with
  | nil => simp
  | cons a as ih =>
    obtain ⟨h1, h2, h3, h4⟩ := ih (settle r a)
    rw [List.foldl_cons, h1, h2, h3, h4]
    cases hok : a.2 <;> simp [settle, hok] <;> omega

theorem take_succ_boundary (l : List Str) (a c : Nat) (hac : a ≤ c) :
    l.take c = l.take a ++ (l.drop a).take (c - a) := by
  have h : c = a + (c - a) := by omega
  conv_lhs => rw [h]
  rw [List.take_add]

theorem slice_boundary {l : List Str} {b : JSVal} {ix : Nat → JSVal} {v : Nat → Nat}
    (hb : Boundaries l.length b ix v) (k : Nat) (hk : v k < l.length) :
    slice l (ix k) (jsAdd (ix k) b) = (l.drop (v k)).take (v (k + 1) - v k) := by
  unfold slice
  rw [hb.next k, hb.index k, hb.index (k + 1)]
  have h1 : min (v k) l.length = v k := by omega
  rw [h1]
  apply List.ext_getElem?
  intro n
  simp only [List.getElem?_take, List.getElem?_drop]
  by_cases hn : n < v (k + 1) - v k
  · by_cases hn2 : n < min (v (k + 1)) l.length - v k
    · simp [hn, hn2]
    · have hlen : l.length ≤ v k + n := by omega
      simp [hn, hn2, List.getElem?_eq_none hlen]
  · have hn2 : ¬ n < min (v (k + 1)) l.length - v k := by omega
    simp [hn, hn2]

theorem loopInv_step {env : Env} {l : List Str} {b : JSVal} {ix : Nat → JSVal}
    {v : Nat → Nat} (hb : Boundaries l.length b ix v) (k : Nat) (d : Dispatch)
    (hk : v k < l.length) (hd : LoopInv env l ix v k d) :
    LoopInv env l ix v (k + 1) (batchStep env l b (ix k) d) := by
  have hmono := hb.mono k hk
  have hsc : d.sendCalls = v k := by rw [hd.sendCalls]; omega
  have hrc : d.randomCalls = k := by rw [hd.randomCalls]; simp [hk]
  have htest : jsLtNat (jsAdd (ix k) b) l.length = decide (v (k + 1) < l.length) := by
    rw [hb.next k, hb.test (k + 1)]
  have htake : l.take (v (k + 1)) = l.take (v k) ++ (l.drop (v k)).take (v (k + 1) - v k) :=
    take_succ_boundary l _ _ (Nat.le_of_lt hmono)
  have hatt : attempt env 0 (l.take (v (k + 1))) =
      attempt env 0 (l.take (v k)) ++
        attempt env (v k) ((l.drop (v k)).take (v (k + 1) - v k)) := by
    rw [htake, attempt_append]
    congr 2
    simp only [List.length_take]
    omega
  have hperm := env.settleOrder_perm d.log.length
    (attempt env (v k) ((l.drop (v k)).take (v (k + 1) - v k)))
  obtain ⟨f1, f2, f3, f4⟩ := foldl_settle
    (env.settleOrder d.log.length (attempt env (v k) ((l.drop (v k)).take (v (k + 1) - v k))))
    d.results
  constructor
  · show d.log ++ [_] = _
    rw [List.range_succ, List.map_append, ← hd.log]
    simp only [List.map_cons, List.map_nil, expectedIteration, slice_boundary hb k hk, hsc,
      hrc, htest]
    by_cases h : v (k + 1) < l.length <;> simp [h]
  · show d.sendCalls + (slice l (ix k) (jsAdd (ix k) b)).length = _
    rw [slice_boundary hb k hk, hsc]
    simp only [List.length_take, List.length_drop]
    omega
  · show (if jsLtNat (jsAdd (ix k) b) l.length then d.randomCalls + 1 else d.randomCalls) = _
    rw [htest, hrc]
    by_cases h : v (k + 1) < l.length <;> simp [h]
  · show (List.foldl settle d.results (env.settleOrder d.log.length
      (attempt env d.sendCalls (slice l (ix k) (jsAdd (ix k) b))))).total = _
    rw [slice_boundary hb k hk, hsc, f1, hd.total]
  · show (List.foldl settle d.results (env.settleOrder d.log.length
      (attempt env d.sendCalls (slice l (ix k) (jsAdd (ix k) b))))).sent =
      (List.foldl settle d.results (env.settleOrder d.log.length
      (attempt env d.sendCalls (slice l (ix k) (jsAdd (ix k) b))))).sentEmails.length
    rw [slice_boundary hb k hk, hsc, f2, f3, hd.sent]
    simp
  · show (List.foldl settle d.results (env.settleOrder d.log.length
      (attempt env d.sendCalls (slice l (ix k) (jsAdd (ix k) b))))).sentEmails.Perm _
    rw [slice_boundary hb k hk, hsc, f3, hatt, List.filter_append, List.map_append]
    exact hd.sentEmails.append ((hperm.filter _).map _)
  · show (List.foldl settle d.results (env.settleOrder d.log.length
      (attempt env d.sendCalls (slice l (ix k) (jsAdd (ix k) b))))).failed = _
    rw [slice_boundary hb k hk, hsc, f4, hatt, List.filter_append, List.length_append,
      hd.failed, (hperm.filter _).length_eq]

theorem loopInv_initial (env : Env) (l : List Str) (ix : Nat → JSVal) (v : Nat → Nat)
    (h0 : v 0 = 0) : LoopInv env l ix v 0 (initialDispatch l) := by
  constructor <;> simp [initialDispatch, h0, attempt]

theorem boundary_ge {len : Nat} {b : JSVal} {ix : Nat → JSVal} {v : Nat → Nat}
    (hb : Boundaries len b ix v) (k : Nat) (hlt : ∀ j < k, v j < len) : k ≤ v k := by
  induction k with
  | zero => exact Nat.zero_le _
  | succ k ih =>
    have h1 := ih (fun j hj => hlt j (Nat.lt_succ_of_lt hj))
    have h2 := hb.mono k (hlt k (Nat.lt_succ_self k))
    omega

theorem batchLoop_from (env : Env) (l : List Str) {b : JSVal} {ix : Nat → JSVal}
    {v : Nat → Nat} (hb : Boundaries l.length b ix v) :
    ∀ (fuel k : Nat) (d : Dispatch), l.length - v k < fuel → (∀ j < k, v j < l.length) →
      LoopInv env l ix v k d →
      ∃ K d', batchLoop env l b fuel (ix k) d = some d' ∧ LoopInv env l ix v K d' ∧
        l.length ≤ v K ∧ ∀ j < K, v j < l.length := by
  intro fuel
  induction fuel with
  | zero => intro k d h; omega
  | succ fuel ih =>
    intro k d hfuel hlt hd
    by_cases hk : v k < l.length
    · have hmono := hb.mono k hk
      obtain ⟨K, d', h1, h2, h3, h4⟩ := ih (k + 1) (batchStep env l b (ix k) d) (by omega)
        (fun j hj => by
          rcases Nat.lt_succ_iff_lt_or_eq.1 hj with h | h
          · exact hlt j h
          · rw [h]; exact hk)
        (loopInv_step hb k d hk hd)
      refine ⟨K, d', ?_, h2, h3, h4⟩
      rw [batchLoop, hb.test k]
      simp only [hk, decide_True, if_true]
      rw [hb.next k]
      exact h1
    · refine ⟨k, d, ?_, hd, by omega, hlt⟩
      rw [batchLoop, hb.test k]
      simp [hk]

/-- With boundaries for the list and the batch size, the loop ends within
`length + 1` tests, after the passes `0, …, K - 1` where `K` is the first index
whose position is past the end of the list. -/
theorem dispatch_of_boundaries (env : Env) (l : List Str) {b : JSVal} {ix : Nat → JSVal}
    {v : Nat → Nat} (hb : Boundaries l.length b ix v) (fuel : Nat) (hfuel : l.length < fuel) :
    ∃ K d, dispatch env l b fuel = some d ∧ LoopInv env l ix v K d ∧
      l.length ≤ v K ∧ ∀ j < K, v j < l.length := by
  have h := batchLoop_from env l hb fuel 0 (initialDispatch l) (by rw [hb.zero]; omega)
    (fun j hj => absurd hj (Nat.not_lt_zero j)) (loopInv_initial env l ix v hb.zero)
  rw [hb.start] at h
  exact h

/-! ## The loop variable for a numeric batch size -/

theorem floorAbs_zero (n : Nat) : floorAbs n 0 = n := by
  simp [floorAbs]

theorem jsLtNat_num (n len : Nat) : jsLtNat (.num n) len = decide (n < len) := by
  simp [jsLtNat, toNumber, JSNum.ltNat, floorAbs_zero]

theorem relIndex_num (n len : Nat) : relIndex (toNumber (.num n)) len = min n len := by
  simp [toNumber, relIndex, floorAbs_zero]

theorem boundaries_num (len B : Nat) (hB : 0 < B) :
    Boundaries len (.num B) (fun k => .num (B * k)) (fun k => B * k) where
  start := by simp
  zero := by simp
  next := fun k => by simp [jsAdd, Nat.mul_succ]
  test := fun k => jsLtNat_num _ _
  index := fun k => relIndex_num _ _
  mono := fun k _ => by rw [Nat.mul_succ]; omega

/-! ## Rounding a natural number to a double -/

theorem bitLengthAux_zero (fuel : Nat) : bitLengthAux fuel 0 = 0 := by
  cases fuel <;> simp [bitLengthAux]

theorem bitLengthAux_spec :
    ∀ (fuel n : Nat), n ≤ fuel → n ≠ 0 →
      2 ^ (bitLengthAux fuel n - 1) ≤ n ∧ n < 2 ^ bitLengthAux fuel n := by
  intro fuel
  induction fuel with
  | zero => intro n h hn; omega
  | succ fuel ih =>
    intro n h hn
    rw [bitLengthAux, if_neg hn]
    by_cases h2 : n / 2 = 0
    · have h1 : n = 1 := by omega
      rw [h2, bitLengthAux_zero]
      subst h1
      decide
    · obtain ⟨ih1, ih2⟩ := ih (n / 2) (by omega) h2
      have hpos : 0 < bitLengthAux fuel (n / 2) := by
        rcases Nat.eq_zero_or_pos (bitLengthAux fuel (n / 2)) with h0 | h0
        · rw [h0] at ih2; simp at ih2; omega
        · exact h0
      have hsplit : bitLengthAux fuel (n / 2) = (bitLengthAux fuel (n / 2) - 1) + 1 := by omega
      constructor
      · rw [Nat.add_sub_cancel, hsplit, pow_succ]
        omega
      · rw [pow_succ]
        omega

theorem bitLength_spec (n : Nat) (hn : n ≠ 0) :
    2 ^ (bitLength n - 1) ≤ n ∧ n < 2 ^ bitLength n :=
  bitLengthAux_spec n n (Nat.le_refl n) hn

theorem bitLength_pos (n : Nat) (hn : n ≠ 0) : 0 < bitLength n := by
  have h := (bitLength_spec n hn).2
  rcases Nat.eq_zero_or_pos (bitLength n) with h0 | h0
  · rw [h0] at h; simp at h; omega
  · exact h0

theorem bitLength_le_of_lt (n j : Nat) (h : n < 2 ^ j) : bitLength n ≤ j := by
  by_cases h0 : n = 0
  · subst h0
    exact Nat.zero_le _
  · have hspec := bitLength_spec n h0
    by_contra hgt
    have h1 : 2 ^ j ≤ 2 ^ (bitLength n - 1) := Nat.pow_le_pow_right (by norm_num) (by omega)
    omega

theorem roundHalfEven_one (a : Nat) : roundHalfEven a 1 = a := by
  simp [roundHalfEven, Nat.mod_one]

theorem roundHalfEven_bounds (a b : Nat) :
    a / b ≤ roundHalfEven a b ∧ roundHalfEven a b ≤ a / b + 1 := by
  unfold roundHalfEven
  split_ifs <;> omega

theorem roundRatio_shape (a b : Nat) :
    roundRatio false a b = .inf false ∨ ∃ m e, roundRatio false a b = .fin false m e := by
  unfold roundRatio
  by_cases h : a = 0
  · rw [if_pos h]
    exact Or.inr ⟨_, _, rfl⟩
  · rw [if_neg h]
    dsimp only
    split_ifs <;> simp

theorem roundRatio_nat_eq (n : Nat) (hn : n ≠ 0) :
    roundRatio false n 1 =
      if 1025 ≤ bitLength (roundHalfEven (n * 2 ^ (53 - bitLength n))
          (2 ^ (bitLength n - 53))) + (bitLength n - 53) then .inf false
      else .fin false (roundHalfEven (n * 2 ^ (53 - bitLength n)) (2 ^ (bitLength n - 53)))
        ((bitLength n : Int) - 53) := by
  have hspec := bitLength_spec n hn
  have hpos := bitLength_pos n hn
  have hone : bitLength 1 = 1 := by decide
  unfold roundRatio
  rw [if_neg hn, hone]
  have hd : ((bitLength n : Int) - ((1 : Nat) : Int)).toNat = bitLength n - 1 := by omega
  have hd' : (-((bitLength n : Int) - ((1 : Nat) : Int))).toNat = 0 := by omega
  simp only [hd, hd', pow_zero, Nat.mul_one, Nat.one_mul, hspec.1, if_true]
  have hQ : max ((bitLength n : Int) - ((1 : Nat) : Int) - 52) (-1074) =
      (bitLength n : Int) - 53 := by omega
  have hq1 : ((bitLength n : Int) - 53).toNat = bitLength n - 53 := by omega
  have hq2 : (-((bitLength n : Int) - 53)).toNat = 53 - bitLength n := by omega
  simp only [hQ, hq1, hq2]

theorem roundRatio_small (n : Nat) (hn : n < 2 ^ 53) :
    ∃ m e, roundRatio false n 1 = .fin false m e ∧ floorAbs m e = n := by
  by_cases h0 : n = 0
  · subst h0
    exact ⟨0, 0, rfl, rfl⟩
  · have hspec := bitLength_spec n h0
    have hpos := bitLength_pos n h0
    have hle : bitLength n ≤ 53 := by
      by_contra hgt
      have h1 : 2 ^ 53 ≤ 2 ^ (bitLength n - 1) :=
        Nat.pow_le_pow_right (by norm_num) (by omega)
      omega
    have hsub : bitLength n - 53 = 0 := by omega
    rw [roundRatio_nat_eq n h0, hsub]
    simp only [pow_zero, roundHalfEven_one, Nat.mul_one]
    have hk : n * 2 ^ (53 - bitLength n) < 2 ^ 53 := by
      calc n * 2 ^ (53 - bitLength n) < 2 ^ bitLength n * 2 ^ (53 - bitLength n) :=
            Nat.mul_lt_mul_of_pos_right hspec.2 ((by positivity))
        _ = 2 ^ 53 := by rw [← pow_add]; congr 1; omega
    have hno : ¬ 1025 ≤ bitLength (n * 2 ^ (53 - bitLength n)) + 0 := by
      have := bitLength_le_of_lt _ 53 hk
      omega
    rw [if_neg hno]
    refine ⟨_, _, rfl, ?_⟩
    unfold floorAbs
    by_cases h53 : bitLength n = 53
    · have : (0 : Int) ≤ (bitLength n : Int) - 53 := by omega
      rw [if_pos this, h53]
      simp
    · have : ¬ (0 : Int) ≤ (bitLength n : Int) - 53 := by omega
      rw [if_neg this]
      have ht : (-((bitLength n : Int) - 53)).toNat = 53 - bitLength n := by omega
      rw [ht]
      exact Nat.mul_div_cancel _ ((by positivity))

theorem roundRatio_large (n : Nat) (hn : 2 ^ 53 ≤ n) :
    roundRatio false n 1 = .inf false ∨
      ∃ m e, roundRatio false n 1 = .fin false m e ∧
        2 ^ (bitLength n - 1) ≤ floorAbs m e ∧ floorAbs m e ≤ 2 ^ bitLength n := by
  have h0 : n ≠ 0 := by
    have : 0 < (2 : Nat) ^ 53 := (by positivity)
    omega
  have hspec := bitLength_spec n h0
  have hge : 54 ≤ bitLength n := by
    by_contra hlt
    have h1 : 2 ^ bitLength n ≤ 2 ^ 53 := Nat.pow_le_pow_right (by norm_num) (by omega)
    omega
  rw [roundRatio_nat_eq n h0]
  have hsub : 53 - bitLength n = 0 := by omega
  rw [hsub]
  simp only [pow_zero, Nat.mul_one]
  split_ifs with hov
  · exact Or.inl rfl
  · right
    refine ⟨_, _, rfl, ?_⟩
    have hq : (0 : Int) ≤ (bitLength n : Int) - 53 := by omega
    have ht : ((bitLength n : Int) - 53).toNat = bitLength n - 53 := by omega
    unfold floorAbs
    rw [if_pos hq, ht]
    obtain ⟨hlo, hhi⟩ := roundHalfEven_bounds n (2 ^ (bitLength n - 53))
    have hp : (0 : Nat) < 2 ^ (bitLength n - 53) := (by positivity)
    have e1 : 2 ^ (bitLength n - 1) = 2 ^ 52 * 2 ^ (bitLength n - 53) := by
      rw [← pow_add]; congr 1; omega
    have e2 : 2 ^ bitLength n = 2 ^ 53 * 2 ^ (bitLength n - 53) := by
      rw [← pow_add]; congr 1; omega
    have hdlo : 2 ^ 52 ≤ n / 2 ^ (bitLength n - 53) := by
      rw [Nat.le_div_iff_mul_le hp, ← e1]
      exact hspec.1
    have hdhi : n / 2 ^ (bitLength n - 53) < 2 ^ 53 := by
      rw [Nat.div_lt_iff_lt_mul hp, ← e2]
      exact hspec.2
    constructor
    · rw [e1]
      exact Nat.mul_le_mul_right _ (Nat.le_trans hdlo hlo)
    · rw [e2]
      exact Nat.mul_le_mul_right _ (by omega)


/-! ## The loop variable for a textual batch size -/

theorem isDigitOf_ten (c : Char) :
    isDigitOf 10 c = true ↔ 48 ≤ c.toNat ∧ c.toNat ≤ 57 := by
  unfold isDigitOf digitValue
  constructor
  · intro h
    by_contra hc
    simp only [hc, if_false] at h
    split_ifs at h with h1 h2
    · have : ¬ (c.toNat - 87 < 10) := by omega
      simp [this] at h
    · have : ¬ (c.toNat - 55 < 10) := by omega
      simp [this] at h
    · simp at h
  · intro h
    have : c.toNat - 48 < 10 := by omega
    simp [h, this]

theorem not_isWhiteSpace_of_digit (c : Char) (h : isDigitOf 10 c = true) :
    isWhiteSpace c = false := by
  have h' := (isDigitOf_ten c).1 h
  unfold isWhiteSpace
  simp only [Bool.or_eq_false_iff, beq_eq_false_iff_ne, Bool.and_eq_false_iff, ne_eq,
    decide_eq_false_iff_not]
  refine ⟨⟨⟨⟨⟨⟨⟨⟨⟨⟨⟨⟨⟨⟨?_, ?_⟩, ?_⟩, ?_⟩, ?_⟩, ?_⟩, ?_⟩, ?_⟩, ?_⟩, ?_⟩, ?_⟩, ?_⟩, ?_⟩, ?_⟩, ?_⟩ <;> omega

theorem dropWhile_eq_self_of_head {α : Type} (p : α → Bool) (l : List α)
    (h : ∀ x, l.head? = some x → p x = false) : l.dropWhile p = l := by
  cases l with
  | nil => rfl
  | cons x xs => simp [List.dropWhile, h x rfl]

theorem trim_eq_self (s : Str) (h : ∀ x ∈ s, isWhiteSpace x = false) : trim s = s := by
  unfold trim
  rw [dropWhile_eq_self_of_head _ _ (fun x hx => h x (List.mem_of_mem_head? hx))]
  rw [List.rdropWhile, dropWhile_eq_self_of_head, List.reverse_reverse]
  intro x hx
  exact h x (List.mem_reverse.1 (List.mem_of_mem_head? hx))

theorem natOfDigits_foldl (r : Nat) (ds : Str) (acc : Nat) :
    ds.foldl (fun a c => r * a + (digitValue r c).getD 0) acc =
      acc * r ^ ds.length + natOfDigits r ds := by
  unfold natOfDigits
  induction ds generalizing acc with
  | nil => simp
  | cons c cs ih =>
    rw [List.foldl_cons, List.foldl_cons, ih, ih (r * 0 + _)]
    simp only [List.length_cons, pow_succ]
    ring

theorem natOfDigits_append (r : Nat) (a b : Str) :
    natOfDigits r (a ++ b) = natOfDigits r a * r ^ b.length + natOfDigits r b := by
  conv_lhs => unfold natOfDigits
  rw [List.foldl_append, natOfDigits_foldl]
  rfl

theorem stringToNumber_zero_digits (ds : Str) (h : ds.all (isDigitOf 10) = true) :
    stringToNumber ('0' :: ds) = roundRatio false (natOfDigits 10 ds) 1 := by
  have hall : ∀ x ∈ ('0' :: ds), isDigitOf 10 x = true := by
    intro x hx
    rcases List.mem_cons.1 hx with rfl | hx
    · decide
    · exact List.all_eq_true.1 h x hx
  have htrim : trim ('0' :: ds) = '0' :: ds :=
    trim_eq_self _ (fun x hx => not_isWhiteSpace_of_digit x (hall x hx))
  have hradix : radixPrefix ('0' :: ds) = none := by
    cases ds with
    | nil => rfl
    | cons d ds' =>
      have hd := (isDigitOf_ten d).1 (hall d (by simp))
      have h1 : d ≠ 'x' := by rintro rfl; revert hd; decide
      have h2 : d ≠ 'X' := by rintro rfl; revert hd; decide
      have h3 : d ≠ 'o' := by rintro rfl; revert hd; decide
      have h4 : d ≠ 'O' := by rintro rfl; revert hd; decide
      have h5 : d ≠ 'b' := by rintro rfl; revert hd; decide
      have h6 : d ≠ 'B' := by rintro rfl; revert hd; decide
      simp [radixPrefix, h1, h2, h3, h4, h5, h6]
  have htake : ('0' :: ds).takeWhile (isDigitOf 10) = '0' :: ds :=
    List.takeWhile_eq_self_iff.2 hall
  have hdrop : ('0' :: ds).dropWhile (isDigitOf 10) = [] :=
    List.dropWhile_eq_nil_iff.2 hall
  have hparse : parseUnsignedDecimal ('0' :: ds) = some (natOfDigits 10 ds, 0) := by
    unfold parseUnsignedDecimal
    rw [hdrop, htake]
    simp only [reduceCtorEq, if_false, Option.some.injEq, Prod.mk.injEq, and_true]
    rw [show ('0' :: ds) = ['0'] ++ ds from rfl, natOfDigits_append]
    have : natOfDigits 10 ['0'] = 0 := by decide
    rw [this]; simp
  unfold stringToNumber
  rw [htrim]
  simp only [hradix]
  have hp : ('0' : Char) ≠ '+' := by decide
  have hm : ('0' : Char) ≠ '-' := by decide
  simp only [hp, hm, if_false]
  unfold parseDecimal
  rw [hparse]
  simp [toDouble]

theorem all_repeatStr (s : Str) (h : s.all (isDigitOf 10) = true) (k : Nat) :
    (repeatStr s k).all (isDigitOf 10) = true := by
  induction k with
  | zero => rfl
  | succ k ih => simp only [repeatStr, List.all_append, ih, h, Bool.and_self]

theorem toNumber_textIndex (s : Str) (h : s.all (isDigitOf 10) = true) (k : Nat) :
    toNumber (textIndex s k) = roundRatio false (natOfDigits 10 (repeatStr s k)) 1 := by
  cases k with
  | zero => rfl
  | succ k =>
    show stringToNumber _ = _
    exact stringToNumber_zero_digits _ (all_repeatStr s h (k + 1))

theorem jsAdd_textIndex (s : Str) (k : Nat) :
    jsAdd (textIndex s k) (.str s) = textIndex s (k + 1) := by
  cases k with
  | zero =>
    have h0 : Nat.toDigits 10 0 = ['0'] := by decide
    simp [textIndex, jsAdd, jsToString, repeatStr, h0]
  | succ k => simp [textIndex, jsAdd, jsToString, repeatStr]

theorem ltNat_roundRatio (a b len : Nat) :
    (roundRatio false a b).ltNat len = decide (position len (roundRatio false a b) < len) := by
  rcases roundRatio_shape a b with h | ⟨m, e, h⟩
  · rw [h]
    simp [JSNum.ltNat, position]
  · rw [h]
    simp [JSNum.ltNat, position]

theorem relIndex_roundRatio (a b len : Nat) :
    relIndex (roundRatio false a b) len = min (position len (roundRatio false a b)) len := by
  rcases roundRatio_shape a b with h | ⟨m, e, h⟩
  · rw [h]
    simp [relIndex, position]
  · rw [h]
    simp [relIndex, position]

theorem position_roundRatio_lt (len n n' : Nat) (hgrow : 10 * n + 1 ≤ n')
    (hlt : position len (roundRatio false n 1) < len) :
    position len (roundRatio false n 1) < position len (roundRatio false n' 1) := by
  have hn' : n' ≠ 0 := by omega
  have hs' := bitLength_spec n' hn'
  by_cases hsmall : n < 2 ^ 53
  · obtain ⟨m, e, hm, hfloor⟩ := roundRatio_small n hsmall
    rw [hm] at hlt ⊢
    simp only [position] at hlt ⊢
    rw [hfloor] at hlt ⊢
    by_cases hsmall' : n' < 2 ^ 53
    · obtain ⟨m', e', hm', hfloor'⟩ := roundRatio_small n' hsmall'
      rw [hm']
      simp only [position]
      omega
    · rcases roundRatio_large n' (by omega) with hinf | ⟨m', e', hm', hlo, _⟩
      · rw [hinf]
        exact hlt
      · rw [hm']
        simp only [position]
        have hbig : 2 ^ 53 ≤ 2 ^ (bitLength n' - 1) := by
          apply Nat.pow_le_pow_right (by norm_num)
          by_contra hc
          have : 2 ^ bitLength n' ≤ 2 ^ 53 := Nat.pow_le_pow_right (by norm_num) (by omega)
          omega
        omega
  · have hn : n ≠ 0 := by
      have : 0 < (2 : Nat) ^ 53 := by positivity
      omega
    have hs := bitLength_spec n hn
    rcases roundRatio_large n (by omega) with hinf | ⟨m, e, hm, _, hhi⟩
    · rw [hinf] at hlt
      simp [position] at hlt
    · rw [hm] at hlt ⊢
      simp only [position] at hlt ⊢
      rcases roundRatio_large n' (by omega) with hinf' | ⟨m', e', hm', hlo', _⟩
      · rw [hinf']
        exact hlt
      · rw [hm']
        simp only [position]
        have hpos := bitLength_pos n hn
        have hstep : 2 ^ bitLength n < 2 ^ (bitLength n' - 1) := by
          have e1 : 2 ^ bitLength n = 2 * 2 ^ (bitLength n - 1) := by
            rw [← pow_succ']; congr 1; omega
          have hlt2 : 2 ^ (bitLength n + 2) < 2 ^ bitLength n' := by
            have e2 : 2 ^ (bitLength n + 2) = 8 * 2 ^ (bitLength n - 1) := by
              have : bitLength n + 2 = 3 + (bitLength n - 1) := by omega
              rw [this, pow_add]
              norm_num
            omega
          have hexp : bitLength n + 2 < bitLength n' := by
            by_contra hc
            have : 2 ^ bitLength n' ≤ 2 ^ (bitLength n + 2) :=
              Nat.pow_le_pow_right (by norm_num) (by omega)
            omega
          exact Nat.pow_lt_pow_right (by norm_num) (by omega)
        omega

theorem natOfDigits_repeat_succ (s : Str) (k : Nat) (hne : s ≠ []) :
    10 * natOfDigits 10 (repeatStr s k) + natOfDigits 10 s ≤
      natOfDigits 10 (repeatStr s (k + 1)) := by
  show _ ≤ natOfDigits 10 (repeatStr s k ++ s)
  rw [natOfDigits_append]
  have hlen : 1 ≤ s.length := by
    cases s with
    | nil => exact absurd rfl hne
    | cons c cs => simp
  have h1 : 10 ^ 1 ≤ 10 ^ s.length := Nat.pow_le_pow_right (by norm_num) hlen
  have h2 := Nat.mul_le_mul_left (natOfDigits 10 (repeatStr s k)) h1
  omega

theorem boundaries_text (len : Nat) (s : Str) (h : positiveDigits s = true) :
    Boundaries len (.str s) (textIndex s) (fun k => position len (toNumber (textIndex s k))) := by
  simp only [positiveDigits, Bool.and_eq_true, decide_eq_true_eq, Bool.not_eq_true',
    List.isEmpty_eq_false] at h
  obtain ⟨⟨hne, hall⟩, hpos⟩ := h
  refine ⟨rfl, rfl, jsAdd_textIndex s, ?_, ?_, ?_⟩
  · intro k
    simp only [jsLtNat, toNumber_textIndex s hall k]
    exact ltNat_roundRatio _ _ _
  · intro k
    simp only [toNumber_textIndex s hall k]
    exact relIndex_roundRatio _ _ _
  · intro k hk
    simp only [toNumber_textIndex s hall] at hk ⊢
    have hgrow := natOfDigits_repeat_succ s k hne
    exact position_roundRatio_lt len _ _ (by omega) hk

/-! ## The handler, case by case -/

theorem handler_validated (env : Env) (req : Request) (fuel : Nat) (b : JSVal)
    (hv : validated req = true) (hb : batchSizeOf req = some b) :
    handler env req fuel = (dispatch env (recipients req) b fuel).map (finish env) := by
  simp only [validated, Bool.and_eq_true, Bool.not_eq_true', Option.isSome_iff_exists] at hv
  obtain ⟨⟨⟨⟨h1, h2⟩, h3⟩, h4⟩, f, hf⟩ := hv
  cases he : req.emails with
  | none => rw [he] at h4; simp [isText] at h4
  | some val =>
    cases val with
    | nonText p => rw [he] at h4; simp [isText] at h4
    | text emails =>
      rw [he] at h3
      simp [handler, h1, h2, h3, he, hf, hb, recipients]

theorem handler_unconvertible (env : Env) (req : Request) (fuel : Nat)
    (hv : validated req = true) (hb : batchSizeOf req = none) :
    handler env req fuel =
      if (recipients req).isEmpty then some (finish env (initialDispatch (recipients req)))
      else some (thrown "Cannot convert object to primitive value") := by
  simp only [validated, Bool.and_eq_true, Bool.not_eq_true', Option.isSome_iff_exists] at hv
  obtain ⟨⟨⟨⟨h1, h2⟩, h3⟩, h4⟩, f, hf⟩ := hv
  cases he : req.emails with
  | none => rw [he] at h4; simp [isText] at h4
  | some val =>
    cases val with
    | nonText p => rw [he] at h4; simp [isText] at h4
    | text emails =>
      rw [he] at h3
      simp [handler, h1, h2, h3, he, hf, hb, recipients]

theorem handler_missing (env : Env) (req : Request) (fuel : Nat)
    (h : missing req.senderEmail = true ∨ missing req.appPassword = true ∨
      missing req.emails = true) :
    handler env req fuel =
      some { response := { status := 400, body := .error "Missing required fields" },
             log := [] } := by
  unfold handler
  rw [if_pos]
  rcases h with h | h | h <;> simp [h]

theorem handler_not_text (env : Env) (req : Request) (fuel : Nat)
    (h1 : missing req.senderEmail = false) (h2 : missing req.appPassword = false)
    (h3 : missing req.emails = false) (h4 : isText req.emails = false) :
    handler env req fuel = some (thrown "emails.split is not a function") := by
  unfold handler
  cases he : req.emails with
  | none => rw [he] at h3; simp [missing] at h3
  | some val =>
    cases val with
    | text emails => rw [he] at h4; simp [isText] at h4
    | nonText p =>
      rw [he] at h3
      simp only [he, h1, h2, h3]
      simp

theorem handler_no_file (env : Env) (req : Request) (fuel : Nat)
    (h1 : missing req.senderEmail = false) (h2 : missing req.appPassword = false)
    (h3 : missing req.emails = false) (h4 : isText req.emails = true)
    (h5 : req.file = none) :
    handler env req fuel =
      some { response := { status := 400, body := .error "Resume PDF is required" },
             log := [] } := by
  unfold handler
  cases he : req.emails with
  | none => rw [he] at h3; simp [missing] at h3
  | some val =>
    cases val with
    | nonText p => rw [he] at h4; simp [isText] at h4
    | text emails =>
      rw [he] at h3
      simp [h1, h2, h3, h5]

theorem handler_all_present (env : Env) (req : Request) (fuel : Nat) (out : Outcome)
    (h1 : missing req.senderEmail = false) (h2 : missing req.appPassword = false)
    (h3 : missing req.emails = false) (h5 : req.file ≠ none)
    (hout : handler env req fuel = some out) : out.response.status ≠ 400 := by
  have hfin : ∀ d, (finish env d).response.status ≠ 400 := by
    intro d
    unfold finish
    cases env.unlinkError <;> simp
  cases h4 : isText req.emails with
  | false =>
    rw [handler_not_text env req fuel h1 h2 h3 h4] at hout
    simp only [Option.some.injEq] at hout
    rw [← hout]
    simp [thrown]
  | true =>
    have hv : validated req = true := by
      cases hf : req.file with
      | none => exact absurd hf h5
      | some f => simp [validated, h1, h2, h3, h4, hf]
    cases hb : batchSizeOf req with
    | some b =>
      rw [handler_validated env req fuel b hv hb] at hout
      cases hd : dispatch env (recipients req) b fuel with
      | none => rw [hd] at hout; cases hout
      | some d =>
        rw [hd] at hout
        simp only [Option.map_some', Option.some.injEq] at hout
        rw [← hout]
        exact hfin d
    | none =>
      cases he : req.emails with
      | none => rw [he] at h3; simp [missing] at h3
      | some val =>
        cases val with
        | nonText p => rw [he] at h4; simp [isText] at h4
        | text emails =>
          cases hf : req.file with
          | none => exact absurd hf h5
          | some f =>
            rw [he] at h3
            simp only [handler, h1, h2, h3, he, hf, hb, Bool.or_self, Bool.false_eq_true,
              if_false] at hout
            split_ifs at hout
            · simp only [Option.some.injEq] at hout
              rw [← hout]
              exact hfin _
            · simp only [Option.some.injEq] at hout
              rw [← hout]
              simp [thrown]

theorem boundaries_of_positive (len : Nat) (req : Request)
    (hb : positiveBatchSize req.batchSize = true) :
    ∃ b ix v, batchSizeOf req = some b ∧ Boundaries len b ix v := by
  unfold batchSizeOf
  cases hs : req.batchSize with
  | none => exact ⟨_, _, _, rfl, boundaries_num len 70 (by norm_num)⟩
  | some val =>
    cases val with
    | nonText p => rw [hs] at hb; simp [positiveBatchSize] at hb
    | text s =>
      rw [hs] at hb
      exact ⟨_, _, _, rfl, boundaries_text len s hb⟩

theorem attemptsOf_expected (env : Env) (l : List Str) (ix : Nat → JSVal) (v : Nat → Nat)
    (hmono : ∀ k, v k < l.length → v k < v (k + 1)) (h0 : v 0 = 0) (K : Nat)
    (hlt : ∀ j < K, v j < l.length) :
    attemptsOf ((List.range K).map (expectedIteration env l ix v)) =
      attempt env 0 (l.take (v K)) := by
  induction K with
  | zero => simp [attemptsOf, h0, attempt]
  | succ K ih =>
    have hK := hlt K (Nat.lt_succ_self K)
    have ih := ih (fun j hj => hlt j (Nat.lt_succ_of_lt hj))
    unfold attemptsOf at ih ⊢
    rw [List.range_succ, List.map_append, List.flatMap_append, ih,
      take_succ_boundary l (v K) (v (K + 1)) (Nat.le_of_lt (hmono K hK)), attempt_append]
    simp only [List.map_cons, List.map_nil, List.flatMap_cons, List.flatMap_nil,
      List.append_nil, expectedIteration]
    congr 2
    simp only [List.length_take]
    omega

theorem batches_expected (env : Env) (l : List Str) (ix : Nat → JSVal) (v : Nat → Nat)
    (hmono : ∀ k, v k < l.length → v k < v (k + 1)) (h0 : v 0 = 0) (K : Nat)
    (hlt : ∀ j < K, v j < l.length) :
    (((List.range K).map (expectedIteration env l ix v)).map (fun it => it.batch)).flatten =
      l.take (v K) := by
  induction K with
  | zero => simp [h0]
  | succ K ih =>
    have hK := hlt K (Nat.lt_succ_self K)
    rw [List.range_succ, List.map_append, List.map_append, List.flatten_append,
      ih (fun j hj => hlt j (Nat.lt_succ_of_lt hj)),
      take_succ_boundary l (v K) (v (K + 1)) (Nat.le_of_lt (hmono K hK))]
    simp [expectedIteration]

theorem passes_le_length {len : Nat} {b : JSVal} {ix : Nat → JSVal} {v : Nat → Nat}
    (hb : Boundaries len b ix v) (K : Nat) (h : ∀ j < K, v j < len) : K ≤ len := by
  cases K with
  | zero => exact Nat.zero_le _
  | succ K =>
    have h1 := h K (Nat.lt_succ_self K)
    have h2 := boundary_ge hb K (fun j hj => h j (Nat.lt_succ_of_lt hj))
    omega

theorem delayMs_bounds (env : Env) (r : ℚ) (h0 : 0 ≤ r) (h1 : r < 1) :
    180000 ≤ delayMs env r ∧ delayMs env r ≤ 300000 := by
  unfold delayMs
  have e0 : env.fl 0 = 0 := by simpa using env.fl_exact 0 (by norm_num)
  have e1 : env.fl 120000 = 120000 := by simpa using env.fl_exact 120000 (by norm_num)
  have e2 : env.fl 180000 = 180000 := by simpa using env.fl_exact 180000 (by norm_num)
  have e3 : env.fl 300000 = 300000 := by simpa using env.fl_exact 300000 (by norm_num)
  have a1 := env.fl_mono 0 (r * 120000) (by linarith)
  have a2 := env.fl_mono (r * 120000) 120000 (by linarith)
  rw [e0] at a1
  rw [e1] at a2
  have b1 := env.fl_mono 180000 (env.fl (r * 120000) + 180000) (by linarith)
  have b2 := env.fl_mono (env.fl (r * 120000) + 180000) 300000 (by linarith)
  rw [e2] at b1
  rw [e3] at b2
  exact ⟨b1, b2⟩

/-! ## The state the loop ends in -/

theorem length_filter_add (as : List (Str × Bool)) :
    (as.filter (fun a => a.2)).length + (as.filter (fun a => !a.2)).length = as.length := by
  induction as with
  | nil => rfl
  | cons a as ih =>
    cases h : a.2 <;> simp [List.filter_cons, h] <;> omega

theorem getElem?_map_range {α : Type} (f : Nat → α) (K j : Nat) (x : α)
    (h : ((List.range K).map f)[j]? = some x) : j < K ∧ x = f j := by
  rw [List.getElem?_map] at h
  by_cases hj : j < K
  · rw [List.getElem?_range hj] at h
    simp only [Option.map_some', Option.some.injEq] at h
    exact ⟨hj, h.symm⟩
  · rw [List.getElem?_eq_none (by simpa using hj)] at h
    cases h

theorem completed_of_loopInv {env : Env} {l : List Str} {b : JSVal} {ix : Nat → JSVal}
    {v : Nat → Nat} (hb : Boundaries l.length b ix v) {K : Nat} {d : Dispatch}
    (hd : LoopInv env l ix v K d) (hK : l.length ≤ v K) (hlt : ∀ j < K, v j < l.length) :
    Completed env l d := by
  have htake : l.take (v K) = l := List.take_of_length_le hK
  have hs := hd.sentEmails
  have hf := hd.failed
  have hlen : d.log.length = K := by rw [hd.log]; simp
  rw [htake] at hs hf
  refine ⟨?_, ?_, ?_, ⟨v, ?_, ?_⟩, hd.total, ?_, hd.sent, hs, hf⟩
  · rw [hd.log, attemptsOf_expected env l ix v hb.mono hb.zero K hlt, htake]
  · rw [hd.log, batches_expected env l ix v hb.mono hb.zero K hlt, htake]
  · rw [hlen]
    exact passes_le_length hb K hlt
  · intro j hj
    rw [hlen] at hj
    exact hb.mono j (hlt j (by omega))
  · intro j it hj
    rw [hd.log] at hj
    obtain ⟨hjK, rfl⟩ := getElem?_map_range _ K j it hj
    have hv := hlt j hjK
    refine ⟨?_, ?_⟩
    · show jsLtNat (ix j) l.length = true
      rw [hb.test j]
      simpa using hv
    · show relIndex (toNumber (ix j)) l.length = v j
      rw [hb.index j]
      omega
  · rw [hd.total, hd.sent, hs.length_eq, hf, List.length_map]
    rw [length_filter_add, length_attempt]

theorem dispatch_positive (env : Env) (req : Request) (fuel : Nat)
    (hb : positiveBatchSize req.batchSize = true) (hfuel : (recipients req).length < fuel) :
    ∃ b d, batchSizeOf req = some b ∧ dispatch env (recipients req) b fuel = some d ∧
      Completed env (recipients req) d := by
  obtain ⟨b, ix, v, hbs, hbd⟩ := boundaries_of_positive (recipients req).length req hb
  obtain ⟨K, d, h1, h2, h3, h4⟩ := dispatch_of_boundaries env (recipients req) hbd fuel hfuel
  exact ⟨b, d, hbs, h1, completed_of_loopInv hbd h2 h3 h4⟩

theorem finish_results (env : Env) (d : Dispatch) (r : Results)
    (h : (finish env d).response.body = .results r) : r = d.results := by
  unfold finish at h
  cases hu : env.unlinkError with
  | none => rw [hu] at h; simp at h; exact h.symm
  | some m => rw [hu] at h; simp at h

theorem finish_unlink_ok (env : Env) (d : Dispatch) (h : env.unlinkError = none) :
    finish env d = { response := { status := 200, body := .results d.results }, log := d.log } := by
  unfold finish
  rw [h]

theorem finish_log (env : Env) (d : Dispatch) : (finish env d).log = d.log := by
  unfold finish
  cases env.unlinkError <;> rfl

/-! ## C1: `sent + failed == total` -/

/-- C1 (amended): for every request that passes validation and whose
`batchSize` field is absent or a positive integer in decimal digits, for every
mix of per-recipient success and failure and every order in which the sends
settle, the handler answers, and a returned result has `total` the length of the
parsed recipient list and `sent + failed == total`; the result is returned
whenever the deletion of the attachment succeeds. -/
theorem sent_add_failed_eq_total (env : Env) (req : Request) (fuel : Nat)
    (hv : validated req = true) (hb : positiveBatchSize req.batchSize = true)
    (hfuel : (recipients req).length < fuel) :
    ∃ out, handler env req fuel = some out ∧
      (env.unlinkError = none → ∃ r, out.response = { status := 200, body := .results r }) ∧
      ∀ r, out.response.body = .results r →
        r.total = (recipients req).length ∧ r.sent + r.failed = r.total := by
  obtain ⟨b, d, hbs, hd, hc⟩ := dispatch_positive env req fuel hb hfuel
  refine ⟨finish env d, ?_, ?_, ?_⟩
  · rw [handler_validated env req fuel b hv hbs, hd]; rfl
  · intro hu
    exact ⟨d.results, by rw [finish_unlink_ok env d hu]⟩
  · intro r hr
    rw [finish_results env d r hr]
    exact ⟨hc.total, hc.sum⟩

/-- C1 witness: three recipients, batch size "2", the second send failing. -/
theorem sent_add_failed_eq_total_witness :
    ∃ out, handler (sampleEnv fun n => n != 1)
        (sampleRequest (some "a@x.org, b@x.org, c@x.org") (some "2")) 4 = some out ∧
      ((sampleEnv fun n => n != 1).unlinkError = none →
        ∃ r, out.response = { status := 200, body := .results r }) ∧
      ∀ r, out.response.body = .results r →
        r.total = (recipients (sampleRequest (some "a@x.org, b@x.org, c@x.org")
          (some "2"))).length ∧ r.sent + r.failed = r.total :=
  sent_add_failed_eq_total _ _ 4 (by decide) (by decide) (by decide)

/-- C1 counterexample: with `batchSize` the text "abc" the loop makes one pass
over an empty slice and stops; the handler answers 200 with `total` 1 and
`sent` and `failed` both 0. -/
theorem sent_add_failed_ne_total_abc :
    validated (sampleRequest (some "a@x.org") (some "abc")) = true ∧
    ∃ out r, handler (sampleEnv fun _ => true)
        (sampleRequest (some "a@x.org") (some "abc")) 2 = some out ∧
      out.response = { status := 200, body := .results r } ∧
      r.total = 1 ∧ r.sent + r.failed ≠ r.total := by
  refine ⟨by decide, ?_⟩
  have h : (handler (sampleEnv fun _ => true)
      (sampleRequest (some "a@x.org") (some "abc")) 2).map (fun out => out.response) =
      some { status := 200,
             body := .results { total := 1, sent := 0, failed := 0, sentEmails := [] } } := by
    decide
  cases hh : handler (sampleEnv fun _ => true)
      (sampleRequest (some "a@x.org") (some "abc")) 2 with
  | none => rw [hh] at h; simp at h
  | some out =>
    rw [hh] at h
    simp only [Option.map_some', Option.some.injEq] at h
    exact ⟨out, _, rfl, h, rfl, by decide⟩

/-! ## C4: one attempt for every recipient -/

theorem getElem?_attempt (env : Env) (m : Nat) (l : List Str) (n : Nat) (a : Str × Bool)
    (h : (attempt env m l)[n]? = some a) : l[n]? = some a.1 ∧ a.2 = env.sendMailOk (m + n) := by
  induction l generalizing m n with
  | nil => simp [attempt] at h
  | cons x xs ih =>
    cases n with
    | zero =>
      simp only [attempt, List.getElem?_cons_zero, Option.some.injEq] at h
      subst h
      simp [sendEmail]
    | succ n =>
      simp only [attempt, List.getElem?_cons_succ] at h
      obtain ⟨h1, h2⟩ := ih (m + 1) n h
      refine ⟨by simpa using h1, ?_⟩
      rw [h2]
      congr 1
      omega

/-- X1: for every request that passes validation and whose `batchSize` field is
absent or a positive integer in bare decimal digits, every assignment of
success or failure to the sends and every order in which they settle,
`sendEmail` is called exactly once for every entry of the recipient list, in
list order, whatever the outcomes; the returned `sentEmails` is a rearrangement
of the entries whose attempt succeeded, `sent` is its length and `failed` is
the number of failed attempts. -/
theorem every_recipient_attempted_once (env : Env) (req : Request) (fuel : Nat)
    (hv : validated req = true) (hb : positiveBatchSize req.batchSize = true)
    (hfuel : (recipients req).length < fuel) :
    ∃ out, handler env req fuel = some out ∧
      (attemptsOf out.log).map (fun a => a.1) = recipients req ∧
      (∀ n a, (attemptsOf out.log)[n]? = some a → a.2 = env.sendMailOk n) ∧
      (out.log.map (fun it => it.batch)).flatten = recipients req ∧
      (env.unlinkError = none → ∃ r, out.response = { status := 200, body := .results r }) ∧
      ∀ r, out.response.body = .results r →
        r.sentEmails.Perm (((attemptsOf out.log).filter (fun a => a.2)).map (fun a => a.1)) ∧
        r.sent = r.sentEmails.length ∧
        r.failed = ((attemptsOf out.log).filter (fun a => !a.2)).length := by
  obtain ⟨b, d, hbs, hd, hc⟩ := dispatch_positive env req fuel hb hfuel
  refine ⟨finish env d, ?_, ?_, ?_, ?_, ?_, ?_⟩
  · rw [handler_validated env req fuel b hv hbs, hd]; rfl
  · rw [finish_log, hc.attempts, map_fst_attempt]
  · intro n a ha
    rw [finish_log, hc.attempts] at ha
    simpa using (getElem?_attempt env 0 _ n a ha).2
  · rw [finish_log, hc.batches]
  · intro hu
    exact ⟨d.results, by rw [finish_unlink_ok env d hu]⟩
  · intro r hr
    rw [finish_results env d r hr, finish_log, hc.attempts]
    exact ⟨hc.sentEmails, hc.sent, hc.failed⟩

/-- X1 witness: five recipients, batch size "2", the sends number 1 and 3 failing. -/
theorem every_recipient_attempted_once_witness :
    ∃ out, handler (sampleEnv fun n => n % 2 == 0)
        (sampleRequest (some "a@x.org,b@x.org,c@x.org,a@x.org,e@x.org") (some "2")) 6 =
          some out ∧
      (attemptsOf out.log).map (fun a => a.1) =
        recipients (sampleRequest (some "a@x.org,b@x.org,c@x.org,a@x.org,e@x.org") (some "2")) ∧
      (∀ n a, (attemptsOf out.log)[n]? = some a →
        a.2 = (sampleEnv fun n => n % 2 == 0).sendMailOk n) ∧
      (out.log.map (fun it => it.batch)).flatten =
        recipients (sampleRequest (some "a@x.org,b@x.org,c@x.org,a@x.org,e@x.org") (some "2")) ∧
      ((sampleEnv fun n => n % 2 == 0).unlinkError = none →
        ∃ r, out.response = { status := 200, body := .results r }) ∧
      ∀ r, out.response.body = .results r →
        r.sentEmails.Perm (((attemptsOf out.log).filter (fun a => a.2)).map (fun a => a.1)) ∧
        r.sent = r.sentEmails.length ∧
        r.failed = ((attemptsOf out.log).filter (fun a => !a.2)).length :=
  every_recipient_attempted_once _ _ 6 (by decide) (by decide) (by decide)

set_option maxRecDepth 100000 in
/-- C4 (failing input): with `batchSize` the text "1 " (the digit 1 and a blank,
which denotes 1) and the recipients a, b the first pass sends to a, the index
becomes "01 ", the next slice end "01 1 " is not a number, and the loop ends
after an empty pass: b is never attempted and the summary is `total` 2, `sent`
1, `failed` 0; with "70 " and 150 recipients only 70 sends are attempted, in
two passes. -/
theorem blank_after_batch_size_drops_recipients :
    validated (sampleRequest (some "a,b") (some "1 ")) = true ∧
    recipients (sampleRequest (some "a,b") (some "1 ")) = [['a'], ['b']] ∧
    (handler (sampleEnv fun _ => true) (sampleRequest (some "a,b") (some "1 ")) 4).map
        (fun out => (out.response, attemptsOf out.log, out.log.map fun it => it.index)) =
      some ({ status := 200,
              body := .results { total := 2, sent := 1, failed := 0, sentEmails := [['a']] } },
            [(['a'], true)], [JSVal.num 0, JSVal.str ['0', '1', ' ']]) ∧
    (recipients (sampleRequest (some (manyRecipients 150)) (some "70 "))).length = 150 ∧
    (handler (sampleEnv fun _ => true)
        (sampleRequest (some (manyRecipients 150)) (some "70 ")) 151).map
        (fun out => (out.response.status, (attemptsOf out.log).length, out.log.length)) =
      some (200, 70, 2) := by
  decide

/-! ## C10: termination -/

/-- C10 (amended): for every request whose `batchSize` field is absent or a
positive integer in decimal digits, and every assignment of success or failure
to sends that each settle, the handler ends after at most as many passes of the
batch loop as there are recipients, and the client receives a validation
rejection (400), the 500 error of the `catch` block when `emails` is present
but not a string (`emails.split` throws before any send), the full delivery
summary (200) or, when the deletion of the attachment throws, the 500 error of
the `catch` block; the array position the loop index stands for strictly
increases from one pass to the next. -/
theorem handler_terminates (env : Env) (req : Request) (fuel : Nat)
    (hb : positiveBatchSize req.batchSize = true)
    (hfuel : (recipients req).length < fuel) :
    ∃ out, handler env req fuel = some out ∧
      out.log.length ≤ (recipients req).length ∧
      ((validated req = false ∧ out.log = [] ∧ ∃ message,
          out.response = { status := 400, body := .error message }) ∨
        (validated req = false ∧ isText req.emails = false ∧ out.log = [] ∧
          out.response =
            { status := 500,
              body := .failure "Failed to send emails" "emails.split is not a function" }) ∨
        (validated req = true ∧ env.unlinkError = none ∧ ∃ r,
          out.response = { status := 200, body := .results r } ∧
          r.total = (recipients req).length ∧ r.sent + r.failed = r.total) ∨
        (validated req = true ∧ ∃ message, env.unlinkError = some message ∧
          out.response =
            { status := 500, body := .failure "Failed to send emails" message })) ∧
      ∃ v : Nat → Nat, (∀ j, j + 1 < out.log.length → v j < v (j + 1)) ∧
        ∀ j it, out.log[j]? = some it →
          jsLtNat it.index (recipients req).length = true ∧
          relIndex (toNumber it.index) (recipients req).length = v j := by
  have hnolog : ∀ out : Outcome, out.log = [] →
      out.log.length ≤ (recipients req).length ∧
      ∃ v : Nat → Nat, (∀ j, j + 1 < out.log.length → v j < v (j + 1)) ∧
        ∀ j it, out.log[j]? = some it →
          jsLtNat it.index (recipients req).length = true ∧
          relIndex (toNumber it.index) (recipients req).length = v j := by
    intro out hlog
    rw [hlog]
    exact ⟨Nat.zero_le _, fun j => j, fun j hj => absurd hj (Nat.not_lt_zero _),
      fun j it hj => by simp at hj⟩
  cases hv : validated req with
  | true =>
    obtain ⟨b, d, hbs, hd, hc⟩ := dispatch_positive env req fuel hb hfuel
    refine ⟨finish env d, ?_, ?_, ?_, ?_⟩
    · rw [handler_validated env req fuel b hv hbs, hd]; rfl
    · rw [finish_log]; exact hc.passes
    · right; right
      cases hu : env.unlinkError with
      | none =>
        left
        exact ⟨rfl, rfl, d.results, by rw [finish_unlink_ok env d hu], hc.total, hc.sum⟩
      | some m =>
        right
        refine ⟨rfl, m, rfl, ?_⟩
        unfold finish
        rw [hu]
    · rw [finish_log]; exact hc.indices
  | false =>
    by_cases hm : missing req.senderEmail = true ∨ missing req.appPassword = true ∨
        missing req.emails = true
    · have hh := handler_missing env req fuel hm
      obtain ⟨h1, h2⟩ := hnolog ⟨⟨400, .error "Missing required fields"⟩, []⟩ rfl
      exact ⟨_, hh, h1, Or.inl ⟨rfl, rfl, _, rfl⟩, h2⟩
    · simp only [not_or, Bool.not_eq_true] at hm
      obtain ⟨m1, m2, m3⟩ := hm
      cases ht : isText req.emails with
      | false =>
        have hh := handler_not_text env req fuel m1 m2 m3 ht
        obtain ⟨h1, h2⟩ := hnolog (thrown "emails.split is not a function") rfl
        exact ⟨_, hh, h1, Or.inr (Or.inl ⟨rfl, rfl, rfl, rfl⟩), h2⟩
      | true =>
        cases hf : req.file with
        | some f => simp [validated, m1, m2, m3, ht, hf] at hv
        | none =>
          have hh := handler_no_file env req fuel m1 m2 m3 ht hf
          obtain ⟨h1, h2⟩ := hnolog ⟨⟨400, .error "Resume PDF is required"⟩, []⟩ rfl
          exact ⟨_, hh, h1, Or.inl ⟨rfl, rfl, _, rfl⟩, h2⟩

/-- C10 witness: three recipients and the default batch size. -/
theorem handler_terminates_witness :
    ∃ out, handler (sampleEnv fun _ => true)
        (sampleRequest (some "a@x.org,b@x.org,c@x.org") none) 4 = some out ∧
      out.log.length ≤ (recipients (sampleRequest (some "a@x.org,b@x.org,c@x.org") none)).length ∧
      ((validated (sampleRequest (some "a@x.org,b@x.org,c@x.org") none) = false ∧
          out.log = [] ∧ ∃ message,
          out.response = { status := 400, body := .error message }) ∨
        (validated (sampleRequest (some "a@x.org,b@x.org,c@x.org") none) = false ∧
          isText (sampleRequest (some "a@x.org,b@x.org,c@x.org") none).emails = false ∧
          out.log = [] ∧
          out.response =
            { status := 500,
              body := .failure "Failed to send emails" "emails.split is not a function" }) ∨
        (validated (sampleRequest (some "a@x.org,b@x.org,c@x.org") none) = true ∧
          (sampleEnv fun _ => true).unlinkError = none ∧ ∃ r,
          out.response = { status := 200, body := .results r } ∧
          r.total = (recipients (sampleRequest (some "a@x.org,b@x.org,c@x.org") none)).length ∧
          r.sent + r.failed = r.total) ∨
        (validated (sampleRequest (some "a@x.org,b@x.org,c@x.org") none) = true ∧
          ∃ message, (sampleEnv fun _ => true).unlinkError = some message ∧
          out.response =
            { status := 500, body := .failure "Failed to send emails" message })) ∧
      ∃ v : Nat → Nat, (∀ j, j + 1 < out.log.length → v j < v (j + 1)) ∧
        ∀ j it, out.log[j]? = some it →
          jsLtNat it.index
            (recipients (sampleRequest (some "a@x.org,b@x.org,c@x.org") none)).length = true ∧
          relIndex (toNumber it.index)
            (recipients (sampleRequest (some "a@x.org,b@x.org,c@x.org") none)).length = v j :=
  handler_terminates _ _ 4 (by decide) (by decide)

theorem natOfDigits_repeat_zero (s : Str) (h : natOfDigits 10 s = 0) (k : Nat) :
    natOfDigits 10 (repeatStr s k) = 0 := by
  induction k with
  | zero => rfl
  | succ k ih =>
    rw [repeatStr, natOfDigits_append, ih, h]
    simp

theorem batchLoop_zero_text (env : Env) (l : List Str) (hl : 0 < l.length) (s : Str)
    (hall : s.all (isDigitOf 10) = true) (hzero : natOfDigits 10 s = 0) :
    ∀ (fuel k : Nat) (d : Dispatch),
      batchLoop env l (.str s) fuel (textIndex s k) d = none := by
  intro fuel
  induction fuel with
  | zero => intro k d; rfl
  | succ fuel ih =>
    intro k d
    have hnum : toNumber (textIndex s k) = .fin false 0 0 := by
      rw [toNumber_textIndex s hall k, natOfDigits_repeat_zero s hzero k]
      rfl
    have hlt : jsLtNat (textIndex s k) l.length = true := by
      simp [jsLtNat, hnum, JSNum.ltNat, floorAbs, hl]
    rw [batchLoop, hlt, if_pos rfl, jsAdd_textIndex]
    exact ih (k + 1) _

/-- C10 counterexample: with `batchSize` the text "0" and one recipient, the
loop index is "0", "00", "000", … and every loop test passes: no amount of fuel
lets the handler answer. -/
theorem handler_never_answers_zero :
    ¬ ∃ fuel, (handler (sampleEnv fun _ => true)
      (sampleRequest (some "a@x.org") (some "0")) fuel).isSome = true := by
  rintro ⟨fuel, h⟩
  rw [handler_validated (sampleEnv fun _ => true) (sampleRequest (some "a@x.org") (some "0"))
    fuel (.str ['0']) (by decide) (by decide)] at h
  have hl : 0 < (recipients (sampleRequest (some "a@x.org") (some "0"))).length := by decide
  have hnone := batchLoop_zero_text (sampleEnv fun _ => true) _ hl ['0'] (by decide)
    (by decide) fuel 0
    (initialDispatch (recipients (sampleRequest (some "a@x.org") (some "0"))))
  rw [dispatch] at h
  rw [show textIndex ['0'] 0 = JSVal.num 0 from rfl] at hnone
  rw [hnone] at h
  simp at h

/-! ## C3: the default batch size -/

theorem length_delaysOf_all (f : Nat → Iteration) (K : Nat)
    (h : ∀ j < K, (f j).delay.isSome = true) :
    (delaysOf ((List.range K).map f)).length = K := by
  induction K with
  | zero => rfl
  | succ K ih =>
    obtain ⟨ms, hms⟩ := Option.isSome_iff_exists.1 (h K (Nat.lt_succ_self K))
    unfold delaysOf at ih ⊢
    rw [List.range_succ, List.map_append, List.filterMap_append, List.length_append,
      ih (fun j hj => h j (Nat.lt_succ_of_lt hj))]
    simp [hms]

theorem length_delaysOf (f : Nat → Iteration) (K : Nat)
    (h : ∀ j < K, ((f j).delay.isSome = true ↔ j + 1 < K)) :
    (delaysOf ((List.range K).map f)).length = K - 1 := by
  cases K with
  | zero => rfl
  | succ K =>
    have hall := length_delaysOf_all f K (fun j hj => (h j (Nat.lt_succ_of_lt hj)).2 (by omega))
    have hlast : (f K).delay = none := by
      cases hd : (f K).delay with
      | none => rfl
      | some ms =>
        have := (h K (Nat.lt_succ_self K)).1 (by rw [hd]; rfl)
        omega
    unfold delaysOf at hall ⊢
    rw [List.range_succ, List.map_append, List.filterMap_append, List.length_append, hall]
    simp [hlast]

/-- C3: for every request that passes validation without a `batchSize` field
and with `N > 0` recipients, the loop makes `ceil(N / 70)` passes, pass `j`
takes the 70 entries from position `70 j` on (fewer at the end of the list), a
delay follows every pass except the last, so `ceil(N / 70) - 1` delays occur,
and every delay is `r * 120000 + 180000` for a random `r` in `[0, 1)` and lies
in `[180000, 300000]`; 150 recipients give batches of 70, 70 and 10 and two
delays, one recipient gives one batch, one send and no delay. -/
theorem default_batches_and_delays (env : Env) (req : Request) (fuel : Nat)
    (hv : validated req = true) (hb : req.batchSize = none)
    (hN : 0 < (recipients req).length) (hfuel : (recipients req).length < fuel) :
    ∃ out, handler env req fuel = some out ∧
      out.log.length = ((recipients req).length + 69) / 70 ∧
      (∀ j it, out.log[j]? = some it →
        it.batch = ((recipients req).drop (70 * j)).take 70 ∧
        (it.delay.isSome = true ↔ j + 1 < out.log.length)) ∧
      (delaysOf out.log).length = ((recipients req).length + 69) / 70 - 1 ∧
      (∀ ms ∈ delaysOf out.log,
        (∃ r : ℚ, 0 ≤ r ∧ r < 1 ∧ ms = delayMs env r) ∧ 180000 ≤ ms ∧ ms ≤ 300000) ∧
      (∀ r : ℚ, 0 ≤ r → r < 1 → 180000 ≤ delayMs env r ∧ delayMs env r ≤ 300000) ∧
      ((recipients req).length = 150 →
        out.log.map (fun it => it.batch.length) = [70, 70, 10] ∧
        (delaysOf out.log).length = 2) ∧
      ((recipients req).length = 1 →
        out.log.length = 1 ∧ (attemptsOf out.log).length = 1 ∧
        (delaysOf out.log).length = 0) := by
  have hbs : batchSizeOf req = some (.num 70) := by unfold batchSizeOf; rw [hb]
  have hbd := boundaries_num (recipients req).length 70 (by norm_num)
  obtain ⟨K, d, h1, h2, h3, h4⟩ :=
    dispatch_of_boundaries env (recipients req) hbd fuel hfuel
  have hc := completed_of_loopInv hbd h2 h3 h4
  have h3 : (recipients req).length ≤ 70 * K := h3
  have h4 : ∀ j < K, 70 * j < (recipients req).length := h4
  have hKpos : 0 < K := by
    rcases Nat.eq_zero_or_pos K with h | h
    · rw [h] at h3; omega
    · exact h
  have hlast := h4 (K - 1) (by omega)
  have hK : K = ((recipients req).length + 69) / 70 := by omega
  have hlen : d.log.length = K := by rw [h2.log]; simp
  have hdelay : ∀ j < K,
      ((expectedIteration env (recipients req) (fun k => JSVal.num (70 * k))
        (fun k => 70 * k) j).delay.isSome = true ↔ j + 1 < K) := by
    intro j hj
    simp only [expectedIteration]
    by_cases hlt : 70 * (j + 1) < (recipients req).length
    · simp only [hlt, if_true, Option.isSome_some, true_iff]
      omega
    · simp only [hlt, if_false, Option.isSome_none, Bool.false_eq_true, false_iff]
      omega
  have hcount : (delaysOf d.log).length = K - 1 := by
    rw [h2.log]
    exact length_delaysOf _ K hdelay
  refine ⟨finish env d, ?_, ?_, ?_, ?_, ?_, delayMs_bounds env, ?_, ?_⟩
  · rw [handler_validated env req fuel _ hv hbs, h1]; rfl
  · rw [finish_log, hlen, hK]
  · intro j it hj
    rw [finish_log] at hj ⊢
    rw [h2.log] at hj
    obtain ⟨hjK, rfl⟩ := getElem?_map_range _ K j it hj
    refine ⟨?_, ?_⟩
    · simp only [expectedIteration]
      congr 1
      omega
    · rw [hlen]
      exact hdelay j hjK
  · rw [finish_log, hcount, hK]
  · intro ms hms
    rw [finish_log] at hms
    unfold delaysOf at hms
    obtain ⟨it, hit, hd⟩ := List.mem_filterMap.1 hms
    rw [h2.log] at hit
    obtain ⟨j, _, rfl⟩ := List.mem_map.1 hit
    simp only [expectedIteration] at hd
    split_ifs at hd
    simp only [Option.some.injEq] at hd
    subst hd
    exact ⟨⟨env.random j, env.random_nonneg j, env.random_lt_one j, rfl⟩,
      delayMs_bounds env _ (env.random_nonneg j) (env.random_lt_one j)⟩
  · intro h150
    have hK3 : K = 3 := by omega
    refine ⟨?_, by rw [finish_log, hcount, hK3]⟩
    rw [finish_log, h2.log, hK3]
    simp [List.range_succ, expectedIteration, h150]
  · intro hone
    have hK1 : K = 1 := by omega
    refine ⟨by rw [finish_log, hlen, hK1], ?_, by rw [finish_log, hcount, hK1]⟩
    rw [finish_log, hc.attempts, length_attempt, hone]

/-- C3 witness: 71 recipients and no `batchSize` field. -/
theorem default_batches_and_delays_witness :
    ∃ out, handler (sampleEnv fun _ => true)
        (sampleRequest (some (manyRecipients 71)) none) 72 = some out ∧
      out.log.length =
        ((recipients (sampleRequest (some (manyRecipients 71)) none)).length + 69) / 70 ∧
      (∀ j it, out.log[j]? = some it →
        it.batch =
          ((recipients (sampleRequest (some (manyRecipients 71)) none)).drop (70 * j)).take 70 ∧
        (it.delay.isSome = true ↔ j + 1 < out.log.length)) ∧
      (delaysOf out.log).length =
        ((recipients (sampleRequest (some (manyRecipients 71)) none)).length + 69) / 70 - 1 ∧
      (∀ ms ∈ delaysOf out.log,
        (∃ r : ℚ, 0 ≤ r ∧ r < 1 ∧ ms = delayMs (sampleEnv fun _ => true) r) ∧
          180000 ≤ ms ∧ ms ≤ 300000) ∧
      (∀ r : ℚ, 0 ≤ r → r < 1 →
        180000 ≤ delayMs (sampleEnv fun _ => true) r ∧
          delayMs (sampleEnv fun _ => true) r ≤ 300000) ∧
      ((recipients (sampleRequest (some (manyRecipients 71)) none)).length = 150 →
        out.log.map (fun it => it.batch.length) = [70, 70, 10] ∧
        (delaysOf out.log).length = 2) ∧
      ((recipients (sampleRequest (some (manyRecipients 71)) none)).length = 1 →
        out.log.length = 1 ∧ (attemptsOf out.log).length = 1 ∧
        (delaysOf out.log).length = 0) :=
  default_batches_and_delays (sampleEnv fun _ => true)
    (sampleRequest (some (manyRecipients 71)) none) 72 (by decide) rfl (by decide) (by decide)

/-! ## C2: a batch size submitted as text -/

theorem position_textIndex_small (len : Nat) (s : Str) (hall : s.all (isDigitOf 10) = true)
    (k n : Nat) (hn : natOfDigits 10 (repeatStr s k) = n) (hsmall : n < 2 ^ 53) :
    position len (toNumber (textIndex s k)) = n := by
  rw [toNumber_textIndex s hall k, hn]
  obtain ⟨m, e, hm, hfloor⟩ := roundRatio_small n hsmall
  rw [hm]
  exact hfloor

/-- C2 (failing input): with `batchSize` the text "1" and the recipients a, b, c
the loop index is 0 and then the string "01": the first pass takes a, the
second takes b and c together, where three batches of one entry are expected;
and with the text "70" every list of 150 recipients is sent as its first 70
entries followed by the remaining 80 in one batch, not as 70, 70 and 10. -/
theorem text_batch_size_concatenates :
    (handler (sampleEnv fun _ => true) (sampleRequest (some "a,b,c") (some "1")) 4).map
        (fun out => out.log.map (fun it => (it.index, it.batch))) =
      some [(JSVal.num 0, [['a']]), (JSVal.str ['0', '1'], [['b'], ['c']])] ∧
    ∀ (env : Env) (l : List Str), l.length = 150 →
      ∃ d, dispatch env l (.str ['7', '0']) 151 = some d ∧
        d.log.map (fun it => it.batch) = [l.take 70, l.drop 70] := by
  refine ⟨by decide, ?_⟩
  intro env l hl
  have hbd := boundaries_text l.length ['7', '0'] (by decide)
  obtain ⟨K, d, h1, h2, h3, h4⟩ := dispatch_of_boundaries env l hbd 151 (by omega)
  have hall : (['7', '0'] : Str).all (isDigitOf 10) = true := by decide
  have v0 : position l.length (toNumber (textIndex ['7', '0'] 0)) = 0 := rfl
  have v1 : position l.length (toNumber (textIndex ['7', '0'] 1)) = 70 :=
    position_textIndex_small _ _ hall 1 70 (by decide) (by norm_num)
  have v2 : position l.length (toNumber (textIndex ['7', '0'] 2)) = 7070 :=
    position_textIndex_small _ _ hall 2 7070 (by decide) (by norm_num)
  have h3 : l.length ≤ position l.length (toNumber (textIndex ['7', '0'] K)) := h3
  have h4 : ∀ j < K, position l.length (toNumber (textIndex ['7', '0'] j)) < l.length := h4
  have hK : K = 2 := by
    rcases Nat.lt_trichotomy K 2 with h | h | h
    · have hK01 : K = 0 ∨ K = 1 := by omega
      rcases hK01 with h0 | h0
      · rw [h0, v0] at h3
        omega
      · rw [h0, v1] at h3
        omega
    · exact h
    · have := h4 2 h
      rw [v2] at this
      omega
  refine ⟨d, h1, ?_⟩
  rw [h2.log, hK]
  simp only [List.range_succ, List.range_zero, List.nil_append, List.cons_append,
    List.map_cons, List.map_nil, expectedIteration, v0, v1, v2, List.drop_zero, Nat.sub_zero]
  congr 2
  rw [List.take_of_length_le]
  simp only [List.length_drop]
  omega

/-! ## C6: validation -/

/-- C6 (amended): when `senderEmail`, `appPassword` or `emails` is missing
(absent or empty), whatever the other fields are, the handler responds 400 with
a body `{error}` and no pass of the batch loop, hence no send, is made; when
these three are present and only the upload is missing it responds 400 in the
same way if `emails` is a string; when they are present and `emails` is not a
string, `emails.split` throws before the upload is looked at and the `catch`
block responds 500 with `{error, details}`, again without a send; and when all
four are present the handler does not respond 400. -/
theorem missing_field_responses (env : Env) (req : Request) (fuel : Nat) :
    (∀ field : Option FieldValue,
      missing field = true ↔ (field = none ∨ field = some (.text []))) ∧
    ((missing req.senderEmail = true ∨ missing req.appPassword = true ∨
        missing req.emails = true) →
      handler env req fuel =
        some { response := { status := 400, body := .error "Missing required fields" },
               log := [] }) ∧
    (missing req.senderEmail = false → missing req.appPassword = false →
      missing req.emails = false → isText req.emails = true → req.file = none →
      handler env req fuel =
        some { response := { status := 400, body := .error "Resume PDF is required" },
               log := [] }) ∧
    (missing req.senderEmail = false → missing req.appPassword = false →
      missing req.emails = false → isText req.emails = false →
      handler env req fuel =
        some { response :=
                 { status := 500,
                   body := .failure "Failed to send emails" "emails.split is not a function" },
               log := [] }) ∧
    (missing req.senderEmail = false → missing req.appPassword = false →
      missing req.emails = false → req.file ≠ none →
      ∀ out, handler env req fuel = some out → out.response.status ≠ 400) := by
  refine ⟨?_, handler_missing env req fuel, handler_no_file env req fuel,
    handler_not_text env req fuel, ?_⟩
  · intro field
    cases field with
    | none => simp [missing]
    | some val =>
      cases val with
      | nonText p => simp [missing]
      | text s => cases s <;> simp [missing]
  · intro h1 h2 h3 h5 out hout
    exact handler_all_present env req fuel out h1 h2 h3 h5 hout

/-- C6 counterexample: a request without upload whose `emails` field was sent
twice, so that it is an array: the attachment is missing, yet the response is
the 500 of the `catch` block, not 400. -/
theorem missing_file_answered_500 :
    repeatedEmailsRequest.file = none ∧
    (handler (sampleEnv fun _ => true) repeatedEmailsRequest 1).map
        (fun out => out.response) =
      some { status := 500,
             body := .failure "Failed to send emails" "emails.split is not a function" } := by
  decide

/-! ## C7: a batch size that is not positive -/

theorem stringToNumber_zero_minus (ds : Str) (h : ds.all (isDigitOf 10) = true) :
    stringToNumber ('0' :: '-' :: ds) = .nan := by
  have hws : ∀ x ∈ ('0' :: '-' :: ds), isWhiteSpace x = false := by
    intro x hx
    rcases List.mem_cons.1 hx with rfl | hx
    · decide
    · rcases List.mem_cons.1 hx with rfl | hx
      · decide
      · exact not_isWhiteSpace_of_digit x (List.all_eq_true.1 h x hx)
  have htrim : trim ('0' :: '-' :: ds) = '0' :: '-' :: ds := trim_eq_self _ hws
  have hradix : radixPrefix ('0' :: '-' :: ds) = none := by
    have h1 : ('-' : Char) ≠ 'x' := by decide
    have h2 : ('-' : Char) ≠ 'X' := by decide
    have h3 : ('-' : Char) ≠ 'o' := by decide
    have h4 : ('-' : Char) ≠ 'O' := by decide
    have h5 : ('-' : Char) ≠ 'b' := by decide
    have h6 : ('-' : Char) ≠ 'B' := by decide
    simp [radixPrefix, h1, h2, h3, h4, h5, h6]
  have hd0 : isDigitOf 10 '0' = true := by decide
  have hdm : isDigitOf 10 '-' = false := by decide
  have hparse : parseUnsignedDecimal ('0' :: '-' :: ds) = none := by
    unfold parseUnsignedDecimal
    have hm1 : ('-' : Char) ≠ '.' := by decide
    have hm2 : ('-' : Char) ≠ 'e' := by decide
    have hm3 : ('-' : Char) ≠ 'E' := by decide
    simp [List.takeWhile, List.dropWhile, hd0, hdm, hm1, parseExponent, hm2, hm3]
  unfold stringToNumber
  rw [htrim]
  simp only [hradix]
  have hp : ('0' : Char) ≠ '+' := by decide
  have hm : ('0' : Char) ≠ '-' := by decide
  simp only [hp, hm, if_false]
  unfold parseDecimal
  rw [hparse]
  simp

theorem relIndex_first_end (len : Nat) (s : Str) (hn : nonPositiveInteger s = true) :
    relIndex (toNumber (jsAdd (.num 0) (.str s))) len = 0 := by
  have h0 : jsAdd (.num 0) (.str s) = .str ('0' :: s) := jsAdd_textIndex s 0 ▸ by
    simp [textIndex, repeatStr]
  rw [h0]
  simp only [nonPositiveInteger, Bool.or_eq_true, Bool.and_eq_true, Bool.not_eq_true',
    beq_iff_eq] at hn
  rcases hn with ⟨⟨_, hall⟩, hzero⟩ | hneg
  · show relIndex (stringToNumber ('0' :: s)) len = 0
    rw [stringToNumber_zero_digits s hall, hzero]
    simp [roundRatio, relIndex, floorAbs]
  · cases s with
    | nil => simp at hneg
    | cons c ds =>
      simp only [Bool.and_eq_true, beq_iff_eq, Bool.not_eq_true'] at hneg
      obtain ⟨⟨hc, _⟩, hall⟩ := hneg
      subst hc
      show relIndex (stringToNumber ('0' :: '-' :: ds)) len = 0
      rw [stringToNumber_zero_minus ds hall]
      rfl

theorem slice_first_empty (l : List Str) (s : Str) (hn : nonPositiveInteger s = true) :
    slice l (.num 0) (jsAdd (.num 0) (.str s)) = [] := by
  unfold slice
  rw [relIndex_first_end l.length s hn]
  simp

theorem batchStep_first_empty (env : Env) (l : List Str) (s : Str)
    (hn : nonPositiveInteger s = true) :
    (batchStep env l (.str s) (.num 0) (initialDispatch l)).results =
        (initialDispatch l).results ∧
      attemptsOf (batchStep env l (.str s) (.num 0) (initialDispatch l)).log = [] ∧
      ∀ it ∈ (batchStep env l (.str s) (.num 0) (initialDispatch l)).log, it.batch = [] := by
  have hperm := env.settleOrder_perm 0 []
  have hnil : env.settleOrder 0 [] = [] := List.Perm.eq_nil hperm
  refine ⟨?_, ?_, ?_⟩
  · simp [batchStep, slice_first_empty l s hn, attempt, initialDispatch, hnil]
  · simp [batchStep, slice_first_empty l s hn, attempt, initialDispatch, attemptsOf]
  · intro it hit
    simp only [batchStep, slice_first_empty l s hn, initialDispatch, List.nil_append,
      List.mem_singleton] at hit
    rw [hit]

theorem batchLoop_minus (env : Env) (l : List Str) (ds : Str)
    (hall : ds.all (isDigitOf 10) = true) (fuel : Nat) (d : Dispatch) :
    batchLoop env l (.str ('-' :: ds)) (fuel + 1) (.str ('0' :: '-' :: ds)) d = some d := by
  have hlt : jsLtNat (.str ('0' :: '-' :: ds)) l.length = false := by
    simp [jsLtNat, toNumber, stringToNumber_zero_minus ds hall, JSNum.ltNat]
  rw [batchLoop, hlt]
  simp

/-- C7 (amended): the handler does not validate `batchSize`. For every request
that passes validation with a recipient list that is not empty and a
`batchSize` text that is an integer `<= 0` in decimal digits (zero, or a minus
sign and digits), the request is not rejected (the response is never 400) and
the batch size is not replaced by a positive default (with 70 the first batch
would be the first 70 recipients, or all of fewer): the loop is entered with the
submitted value, its first batch is empty, no send is ever attempted, a
response, when there is one, reports `sent` 0 and `failed` 0, and for a negative
integer there is one, after a single pass. -/
theorem nonpositive_batch_size_dispatched (env : Env) (req : Request) (s : Str) (fuel : Nat)
    (hv : validated req = true) (hs : req.batchSize = some (.text s))
    (hn : nonPositiveInteger s = true) (hN : 0 < (recipients req).length) :
    (∀ out, handler env req fuel = some out → out.response.status ≠ 400) ∧
    handler env req (fuel + 1) =
      (batchLoop env (recipients req) (.str s) fuel (jsAdd (.num 0) (.str s))
        (batchStep env (recipients req) (.str s) (.num 0)
          (initialDispatch (recipients req)))).map (finish env) ∧
    slice (recipients req) (.num 0) (jsAdd (.num 0) (.str s)) = [] ∧
    slice (recipients req) (.num 0) (jsAdd (.num 0) (.num 70)) = (recipients req).take 70 ∧
    (recipients req).take 70 ≠ [] ∧
    (∀ out, handler env req fuel = some out →
      attemptsOf out.log = [] ∧ (∀ it ∈ out.log, it.batch = []) ∧
      ∀ r, out.response.body = .results r →
        r.total = (recipients req).length ∧ r.sent = 0 ∧ r.failed = 0) ∧
    (s.head? = some '-' → ∃ out, handler env req (fuel + 2) = some out ∧ out.log.length = 1) := by
  have hbs : batchSizeOf req = some (.str s) := by unfold batchSizeOf; rw [hs]
  have hh : ∀ f, handler env req f =
      (dispatch env (recipients req) (.str s) f).map (finish env) :=
    fun f => handler_validated env req f _ hv hbs
  have htest : jsLtNat (.num 0) (recipients req).length = true := by
    rw [jsLtNat_num]
    simpa using hN
  have hstep : ∀ f, dispatch env (recipients req) (.str s) (f + 1) =
      batchLoop env (recipients req) (.str s) f (jsAdd (.num 0) (.str s))
        (batchStep env (recipients req) (.str s) (.num 0)
          (initialDispatch (recipients req))) := by
    intro f
    rw [dispatch, batchLoop, htest, if_pos rfl]
  obtain ⟨hres, hatt, hbatch⟩ := batchStep_first_empty env (recipients req) s hn
  have hfacts : ∀ f out, handler env req f = some out →
      attemptsOf out.log = [] ∧ (∀ it ∈ out.log, it.batch = []) ∧
      ∀ r, out.response.body = .results r →
        r.total = (recipients req).length ∧ r.sent = 0 ∧ r.failed = 0 := by
    intro f out hout
    simp only [nonPositiveInteger, Bool.or_eq_true, Bool.and_eq_true, Bool.not_eq_true',
      beq_iff_eq] at hn
    rcases hn with ⟨⟨_, hall⟩, hzero⟩ | hneg
    · have hnone := batchLoop_zero_text env (recipients req) hN s hall hzero f 0
        (initialDispatch (recipients req))
      rw [hh f, dispatch, show JSVal.num 0 = textIndex s 0 from rfl, hnone] at hout
      cases hout
    · cases s with
      | nil => simp at hneg
      | cons c ds =>
        simp only [Bool.and_eq_true, beq_iff_eq, Bool.not_eq_true'] at hneg
        obtain ⟨⟨hc, _⟩, hall⟩ := hneg
        subst hc
        have hadd : jsAdd (.num 0) (.str ('-' :: ds)) = .str ('0' :: '-' :: ds) := by
          have h0 : Nat.toDigits 10 0 = ['0'] := by decide
          simp [jsAdd, jsToString, h0]
        cases f with
        | zero => rw [hh 0] at hout; cases hout
        | succ f =>
          cases f with
          | zero =>
            rw [hh 1, hstep 0] at hout
            cases hout
          | succ f =>
            rw [hh (f + 2), hstep (f + 1), hadd, batchLoop_minus env _ ds hall f] at hout
            simp only [Option.map_some', Option.some.injEq] at hout
            rw [← hout, finish_log]
            refine ⟨hatt, hbatch, ?_⟩
            intro r hr
            rw [finish_results env _ r hr, hres]
            exact ⟨rfl, rfl, rfl⟩
  refine ⟨?_, ?_, slice_first_empty _ s hn, ?_, ?_, hfacts fuel, ?_⟩
  · intro out hout
    rw [hh fuel] at hout
    cases hd : dispatch env (recipients req) (.str s) fuel with
    | none => rw [hd] at hout; cases hout
    | some d =>
      rw [hd] at hout
      simp only [Option.map_some', Option.some.injEq] at hout
      rw [← hout]
      unfold finish
      cases env.unlinkError <;> simp
  · rw [hh (fuel + 1), hstep fuel]
  · simp [slice, jsAdd, toNumber, relIndex, floorAbs]
  · intro h
    have := congrArg List.length h
    simp only [List.length_take, List.length_nil] at this
    omega
  · intro hhead
    cases s with
    | nil => simp at hhead
    | cons c ds =>
      simp only [List.head?_cons, Option.some.injEq] at hhead
      subst hhead
      have hall : ds.all (isDigitOf 10) = true := by
        simp only [nonPositiveInteger, Bool.or_eq_true, Bool.and_eq_true, Bool.not_eq_true',
          beq_iff_eq] at hn
        rcases hn with ⟨⟨_, hall⟩, _⟩ | hneg
        · have hm : isDigitOf 10 '-' = false := by decide
          simp [hm] at hall
        · exact hneg.2
      have hadd : jsAdd (.num 0) (.str ('-' :: ds)) = .str ('0' :: '-' :: ds) := by
        have h0 : Nat.toDigits 10 0 = ['0'] := by decide
        simp [jsAdd, jsToString, h0]
      refine ⟨finish env (batchStep env (recipients req) (.str ('-' :: ds)) (.num 0)
        (initialDispatch (recipients req))), ?_, ?_⟩
      · rw [hh (fuel + 2), hstep (fuel + 1), hadd, batchLoop_minus env _ ds hall fuel]
        rfl
      · rw [finish_log]
        simp [batchStep, initialDispatch]

/-- C7 witness: a request with one recipient and `batchSize` "-5". -/
theorem nonpositive_batch_size_dispatched_witness :
    (∀ out, handler (sampleEnv fun _ => true) (sampleRequest (some "a@x.org") (some "-5")) 2 =
      some out → out.response.status ≠ 400) ∧
    handler (sampleEnv fun _ => true) (sampleRequest (some "a@x.org") (some "-5")) (2 + 1) =
      (batchLoop (sampleEnv fun _ => true)
        (recipients (sampleRequest (some "a@x.org") (some "-5"))) (.str ['-', '5']) 2
        (jsAdd (.num 0) (.str ['-', '5']))
        (batchStep (sampleEnv fun _ => true)
          (recipients (sampleRequest (some "a@x.org") (some "-5"))) (.str ['-', '5']) (.num 0)
          (initialDispatch (recipients (sampleRequest (some "a@x.org") (some "-5")))))).map
        (finish (sampleEnv fun _ => true)) ∧
    slice (recipients (sampleRequest (some "a@x.org") (some "-5"))) (.num 0)
      (jsAdd (.num 0) (.str ['-', '5'])) = [] ∧
    slice (recipients (sampleRequest (some "a@x.org") (some "-5"))) (.num 0)
      (jsAdd (.num 0) (.num 70)) =
        (recipients (sampleRequest (some "a@x.org") (some "-5"))).take 70 ∧
    (recipients (sampleRequest (some "a@x.org") (some "-5"))).take 70 ≠ [] ∧
    (∀ out, handler (sampleEnv fun _ => true) (sampleRequest (some "a@x.org") (some "-5")) 2 =
        some out →
      attemptsOf out.log = [] ∧ (∀ it ∈ out.log, it.batch = []) ∧
      ∀ r, out.response.body = .results r →
        r.total = (recipients (sampleRequest (some "a@x.org") (some "-5"))).length ∧
        r.sent = 0 ∧ r.failed = 0) ∧
    ((['-', '5'] : Str).head? = some '-' →
      ∃ out, handler (sampleEnv fun _ => true)
        (sampleRequest (some "a@x.org") (some "-5")) (2 + 2) = some out ∧
        out.log.length = 1) :=
  nonpositive_batch_size_dispatched (sampleEnv fun _ => true)
    (sampleRequest (some "a@x.org") (some "-5")) ['-', '5'] 2 (by decide) rfl (by decide)
    (by decide)

/-- C7 counterexample: a request with `batchSize` "-5" is not rejected and its
batch size is not replaced: the loop runs with the text "-5", makes one pass
over an empty slice, and the handler answers 200 with nothing sent. -/
theorem negative_batch_size_dispatched :
    validated (sampleRequest (some "a@x.org") (some "-5")) = true ∧
    batchSizeOf (sampleRequest (some "a@x.org") (some "-5")) = some (.str ['-', '5']) ∧
    (handler (sampleEnv fun _ => true) (sampleRequest (some "a@x.org") (some "-5")) 2).map
        (fun out => (out.response, out.log.map (fun it => (it.index, it.batch)))) =
      some ({ status := 200,
              body := .results { total := 1, sent := 0, failed := 0, sentEmails := [] } },
            [(JSVal.num 0, [])]) := by
  decide

/-! ## C8: failure of the attachment deletion -/

theorem attempt_withUnlink (env : Env) (e : Option String) (n : Nat) (l : List Str) :
    attempt (withUnlink env e) n l = attempt env n l := by
  induction l generalizing n with
  | nil => rfl
  | cons x xs ih =>
    show sendEmail env n x :: attempt (withUnlink env e) (n + 1) xs = _
    rw [ih]
    rfl

theorem batchStep_withUnlink (env : Env) (e : Option String) (l : List Str) (b i : JSVal)
    (d : Dispatch) : batchStep (withUnlink env e) l b i d = batchStep env l b i d := by
  unfold batchStep
  simp only [attempt_withUnlink]
  rfl

theorem batchLoop_withUnlink (env : Env) (e : Option String) (l : List Str) (b : JSVal) :
    ∀ (fuel : Nat) (i : JSVal) (d : Dispatch),
      batchLoop (withUnlink env e) l b fuel i d = batchLoop env l b fuel i d := by
  intro fuel
  induction fuel with
  | zero => intro i d; rfl
  | succ fuel ih =>
    intro i d
    rw [batchLoop, batchLoop, ih, batchStep_withUnlink]

/-- C8 (amended): for every request that passes validation and whose dispatch
has completed, the sends and the `results` do not depend on the outcome of the
attachment deletion; when the deletion succeeds the handler responds 200 with
the `results` of the dispatch; when `fs.unlinkSync` throws, the `catch` block
responds 500 with `{error: "Failed to send emails", details}` and `results` is
not returned. -/
theorem unlink_failure_gives_500 (env : Env) (req : Request) (fuel : Nat) (b : JSVal)
    (d : Dispatch) (hv : validated req = true) (hb : batchSizeOf req = some b)
    (hd : dispatch env (recipients req) b fuel = some d) :
    (∀ e, dispatch (withUnlink env e) (recipients req) b fuel = some d) ∧
    handler (withUnlink env none) req fuel =
      some { response := { status := 200, body := .results d.results }, log := d.log } ∧
    ∀ message, handler (withUnlink env (some message)) req fuel =
      some { response := { status := 500, body := .failure "Failed to send emails" message },
             log := d.log } := by
  have hw : ∀ e, dispatch (withUnlink env e) (recipients req) b fuel = some d := by
    intro e
    unfold dispatch at hd ⊢
    rw [batchLoop_withUnlink, hd]
  refine ⟨hw, ?_, ?_⟩
  · rw [handler_validated _ req fuel b hv hb, hw]
    rfl
  · intro message
    rw [handler_validated _ req fuel b hv hb, hw]
    rfl

/-- C8 witness: two recipients, the default batch size. -/
theorem unlink_failure_gives_500_witness :
    (∀ e, dispatch (withUnlink (sampleEnv fun _ => true) e)
        (recipients (sampleRequest (some "a@x.org,b@x.org") none)) (.num 70) 3 =
      some finishedTwo) ∧
    handler (withUnlink (sampleEnv fun _ => true) none)
        (sampleRequest (some "a@x.org,b@x.org") none) 3 =
      some { response := { status := 200, body := .results finishedTwo.results },
             log := finishedTwo.log } ∧
    ∀ message, handler (withUnlink (sampleEnv fun _ => true) (some message))
        (sampleRequest (some "a@x.org,b@x.org") none) 3 =
      some { response := { status := 500, body := .failure "Failed to send emails" message },
             log := finishedTwo.log } :=
  unlink_failure_gives_500 (sampleEnv fun _ => true)
    (sampleRequest (some "a@x.org,b@x.org") none) 3 (.num 70) finishedTwo (by decide) rfl rfl

/-- C8 counterexample: the same request and sends, once with the deletion
succeeding and once with `fs.unlinkSync` throwing: the first response is 200
with the results, the second is 500 without them. -/
theorem unlink_failure_changes_response :
    (handler (withUnlink (sampleEnv fun _ => true) none)
        (sampleRequest (some "a@x.org") none) 2).map (fun out => out.response) =
      some { status := 200,
             body := .results { total := 1, sent := 1, failed := 0,
                                sentEmails := ["a@x.org".toList] } } ∧
    (handler (withUnlink (sampleEnv fun _ => true) (some "EPERM: operation not permitted"))
        (sampleRequest (some "a@x.org") none) 2).map (fun out => out.response) =
      some { status := 500,
             body := .failure "Failed to send emails" "EPERM: operation not permitted" } := by
  decide

/-! ## C9: an empty recipient list -/

/-- C9 (amended): for every request that passes validation (so its `emails`
field is not the empty string) and whose recipient list is empty, whatever
`batchSize` is, no pass of the batch loop is made, no send is attempted and no
delay occurs, and, when the deletion of the attachment succeeds, the response is
200 with `{total: 0, sent: 0, failed: 0, sentEmails: []}`; a request whose
`emails` field is the empty string is answered 400 instead. -/
theorem empty_recipient_list (env : Env) (req : Request) (fuel : Nat)
    (hv : validated req = true) (he : recipients req = []) :
    (∃ out, handler env req (fuel + 1) = some out ∧
      out.log = [] ∧ attemptsOf out.log = [] ∧ delaysOf out.log = [] ∧
      (env.unlinkError = none →
        out.response =
          { status := 200,
            body := .results { total := 0, sent := 0, failed := 0, sentEmails := [] } }) ∧
      ∀ r, out.response.body = .results r →
        r = { total := 0, sent := 0, failed := 0, sentEmails := [] }) ∧
    req.emails ≠ some (.text []) ∧
    ∀ other : Request, other.emails = some (.text []) →
      handler env other fuel =
        some { response := { status := 400, body := .error "Missing required fields" },
               log := [] } := by
  refine ⟨?_, ?_, ?_⟩
  · refine ⟨finish env (initialDispatch []), ?_, ?_, ?_, ?_, ?_, ?_⟩
    · cases hbs : batchSizeOf req with
      | some b =>
        have hd : dispatch env (recipients req) b (fuel + 1) = some (initialDispatch []) := by
          rw [he]
          rfl
        rw [handler_validated env req _ b hv hbs, hd]; rfl
      | none =>
        rw [handler_unconvertible env req _ hv hbs, he]
        rfl
    · rw [finish_log]; rfl
    · rw [finish_log]; rfl
    · rw [finish_log]; rfl
    · intro hu
      rw [finish_unlink_ok env _ hu]
      rfl
    · intro r hr
      rw [finish_results env _ r hr]
      rfl
  · intro h
    simp [validated, missing, h] at hv
  · intro other h
    simp [handler, missing, h]

/-- C9 witness: an `emails` field of commas and blanks, and a batch size "0". -/
theorem empty_recipient_list_witness :
    (∃ out, handler (sampleEnv fun _ => true) (sampleRequest (some " , ,") (some "0")) (0 + 1) =
        some out ∧
      out.log = [] ∧ attemptsOf out.log = [] ∧ delaysOf out.log = [] ∧
      ((sampleEnv fun _ => true).unlinkError = none →
        out.response =
          { status := 200,
            body := .results { total := 0, sent := 0, failed := 0, sentEmails := [] } }) ∧
      ∀ r, out.response.body = .results r →
        r = { total := 0, sent := 0, failed := 0, sentEmails := [] }) ∧
    (sampleRequest (some " , ,") (some "0")).emails ≠ some (.text []) ∧
    ∀ other : Request, other.emails = some (.text []) →
      handler (sampleEnv fun _ => true) other 0 =
        some { response := { status := 400, body := .error "Missing required fields" },
               log := [] } :=
  empty_recipient_list _ _ 0 (by decide) (by decide)

/-- C9 counterexample: the `emails` field is the empty string, which yields an
empty recipient list; the request is rejected with 400, not answered 200 with
an all-zero summary. -/
theorem empty_emails_rejected :
    emailList [] = [] ∧
    (handler (sampleEnv fun _ => true) (sampleRequest (some "") none) 1).map
        (fun out => out.response) =
      some { status := 400, body := .error "Missing required fields" } := by
  decide

end EmailRobot
